import Mathlib

/-!
Verification of the ComfyAPI gateway (piewared/ComfyAPI).

This file gives a shallow embedding of the parts of the source relevant to the
frozen claims:

* `src/utils/collections.py`        — `TimeoutMap` (idle map with lazy heap expiry)
* `src/comfyui/comfyui_manager.py`  — `run_workflow`, `connect_to_backend`,
                                      `_monitor_status_socket`
* `src/comfyui/connection_manager.py` — cid/sid index maps, eviction callbacks,
                                      `accept_client_connection`, `backend_to_client`
* `src/comfyui/workflow_analysis.py` — `analyze_workflow`, `get_workflows`
* `src/api/routers/workflows.py`    — `queue_workflow`
* `src/data/workflows.py`           — descriptor data model

Python dictionaries are modelled as association lists over `String` keys with
unique-key semantics (`aset` removes prior bindings), time as `Nat`, and
fallible code as `Except`/`Option`.  In-place mutation of objects that are
aliased by caches or maps is modelled by explicitly writing the mutated value
back into every structure that holds a reference to it.
-/

namespace ComfyAPI

/-- Association list with string keys modelling a Python `dict`.  Keys are kept
unique by construction of `aset`/`aerase`. -/
def AList (V : Type) : Type := List (String × V)

/-- Lookup, `d.get(k)` / `d[k]` presence check. -/
def aget {V : Type} : AList V → String → Option V
  | [], _ => none
  | (k₀, v) :: rest, k => if k₀ = k then some v else aget rest k

/-- Remove every binding of `k`, `d.pop(k, None)` / `del d[k]`. -/
def aerase {V : Type} : AList V → String → AList V
  | [], _ => []
  | (k₀, v) :: rest, k => if k₀ = k then aerase rest k else (k₀, v) :: aerase rest k

/-- Store `d[k] = v`. -/
def aset {V : Type} (l : AList V) (k : String) (v : V) : AList V :=
  (k, v) :: aerase l k

/-- Key set as a list, `d.keys()`. -/
def akeys {V : Type} (l : AList V) : List String := l.map Prod.fst

/-!
## `TimeoutMap` — `src/utils/collections.py`

`heapq` on a Python list of `(expiration_time, key)` tuples is modelled as a
priority queue kept as a list sorted in ascending lexicographic tuple order:
`heappush` inserts in order, `heappop` takes the head.  Python truthiness of
stored values (`if self._evict_callback and item:`) is modelled by a
per-instance `truthy` function, and the presence of an eviction callback by
the flag `hasEvict`; the callback invocations an operation performs are
produced as an event list `(key, value)`.
-/

/-- Lexicographic comparison of `(expiration_time, key)` tuples, as Python
compares them inside `heapq`. -/
def pairLe (a b : Nat × String) : Bool :=
  decide (a.1 < b.1) || (decide (a.1 = b.1) && decide (a.2 ≤ b.2))

/-- `heapq.heappush`: insert keeping the ascending order. -/
def heapPush : List (Nat × String) → Nat × String → List (Nat × String)
  | [], e => [e]
  | x :: xs, e => if pairLe e x then e :: x :: xs else x :: heapPush xs e

/-- The state of a `TimeoutMap` instance. -/
structure TimeoutMap (V : Type) where
  data : AList V
  timestamps : AList Nat
  idle_timeout : Nat
  heap : List (Nat × String)
  /-- Python truthiness of a stored value. -/
  truthy : V → Bool
  /-- Whether `evict_callback` was supplied at construction. -/
  hasEvict : Bool

namespace TimeoutMap

variable {V : Type}

/-- `keys()`. -/
def keys (m : TimeoutMap V) : List String := akeys m.data

/-- `set(key, value)`: store, stamp `now`, push `(now + idle_timeout, key)`. -/
def set (m : TimeoutMap V) (now : Nat) (k : String) (v : V) : TimeoutMap V :=
  { m with data := aset m.data k v,
           timestamps := aset m.timestamps k now,
           heap := heapPush m.heap (now + m.idle_timeout, k) }

/-- `get(key)`: return the value without touching the deadline. -/
def get (m : TimeoutMap V) (k : String) : Option V := aget m.data k

/-- `refresh(key)`: if present, stamp `now` and push a fresh heap entry. -/
def refresh (m : TimeoutMap V) (now : Nat) (k : String) : TimeoutMap V :=
  match aget m.data k with
  | some _ =>
      { m with timestamps := aset m.timestamps k now,
               heap := heapPush m.heap (now + m.idle_timeout, k) }
  | none => m

/-- `pop(key)`: remove from `data` and `timestamps`; if a value was removed and
it is truthy, the eviction callback fires once with `(key, value)` after the
lock is released.  Returns (new map, removed value, callback invocations). -/
def pop (m : TimeoutMap V) (k : String) : TimeoutMap V × Option V × List (String × V) :=
  let item := aget m.data k
  let m1 : TimeoutMap V :=
    { m with data := aerase m.data k, timestamps := aerase m.timestamps k }
  match item with
  | some v => (m1, some v, if m.hasEvict && m.truthy v then [(k, v)] else [])
  | none => (m1, none, [])

/-- The object returned by `get` is mutated in place through the alias held by
the map, so the map's entry changes with it (no timestamp or heap update).
Models e.g. `wf_status.status = "running"` in `_monitor_status_socket`. -/
def mutate (m : TimeoutMap V) (k : String) (v : V) : TimeoutMap V :=
  match aget m.data k with
  | some _ => { m with data := aset m.data k v }
  | none => m

/-- The heap-draining loop of `cleanup()`: pop entries whose expiration is due;
a key whose recorded deadline moved into the future is pushed back and the
loop stops; keys with no timestamp are discarded; due keys are collected.
Returns (remaining heap, expired keys in pop order). -/
def cleanupLoop (now timeout : Nat) :
    List (Nat × String) → AList Nat → List (Nat × String) × List String
  | [], _ => ([], [])
  | (exp, k) :: rest, ts =>
    if exp ≤ now then
      match aget ts k with
      | none => cleanupLoop now timeout rest ts
      | some last =>
        if last + timeout ≤ now then
          let r := cleanupLoop now timeout rest ts
          (r.1, k :: r.2)
        else (heapPush rest (last + timeout, k), [])
    else ((exp, k) :: rest, [])

/-- `for key in expired_keys: await self.pop(key)`. -/
def popMany (m : TimeoutMap V) : List String → TimeoutMap V × List (String × V)
  | [] => (m, [])
  | k :: ks =>
    let r := m.pop k
    let r2 := popMany r.1 ks
    (r2.1, r.2.2 ++ r2.2)

/-- `cleanup()`. -/
def cleanup (m : TimeoutMap V) (now : Nat) : TimeoutMap V × List (String × V) :=
  let r := cleanupLoop now m.idle_timeout m.heap m.timestamps
  popMany { m with heap := r.1 } r.2

/-- Well-formedness of a `TimeoutMap`: `data` and `timestamps` share a key
set, and every recorded key has at least one heap entry `(d, k)` with `d` at
or beyond the recorded deadline `timestamps[k] + idle_timeout`. -/
def Wf (m : TimeoutMap V) : Prop :=
  (∀ k, (aget m.data k).isSome ↔ (aget m.timestamps k).isSome) ∧
  (∀ k last, aget m.timestamps k = some last →
    ∃ d, (d, k) ∈ m.heap ∧ last + m.idle_timeout ≤ d)

end TimeoutMap

/-!
## Workflow data model — `src/data/workflows.py`, `src/comfyui/workflow_analysis.py`

A workflow API file is a JSON object mapping node ids to node objects.  Node
objects are modelled by the two keys the gateway reads (`class_type`,
`inputs`); each is `Option` to model key absence.  JSON values inside an
`inputs` mapping are modelled by `JVal`.
-/

/-- JSON values as they appear inside a node's `inputs` mapping. -/
inductive JVal where
  | str : String → JVal
  | num : Int → JVal
  | boolean : Bool → JVal
  | null : JVal
  | arr : List JVal → JVal
  | obj : List (String × JVal) → JVal

/-- A node object of a workflow definition, restricted to the keys the
gateway reads.  `class_type` is the value of the `class_type` key when
present (assumed to be a string, as in every ComfyUI workflow), `inputs`
the value of the `inputs` key when present. -/
structure JNode where
  class_type : Option String
  inputs : Option (AList JVal)

/-- `WorkflowInput` (pydantic model in `src/data/workflows.py`). -/
structure WorkflowInput where
  node_id : String
  value : JVal
  node_type : Option String := none
  display_name : Option String := none
  description : Option String := none

/-- `WorkflowWebsocketImageOutput` (pydantic model in `src/data/workflows.py`). -/
structure WorkflowWebsocketImageOutput where
  node_id : String
  node_type : String
  connection_id : String
  output_id : String

/-- `WorkflowDescriptor` (pydantic model in `src/data/workflows.py`).
In Python, `workflow_json` and `nodes` hold aliases of the *same* node
dictionaries; every in-place node mutation is therefore written into both
fields here. -/
structure WorkflowDescriptor where
  workflow_id : String
  workflow_json : AList JNode
  nodes : AList JNode
  edges : List (String × String × String)
  source_ids : List String
  sink_ids : List String
  external_parameters : AList (AList JVal)
  inputs : List WorkflowInput
  outputs : List WorkflowWebsocketImageOutput

/-- Errors escaping `analyze_workflow`.  `valueErr` covers `ValueError` and
its subclasses (`json.JSONDecodeError`, pydantic `ValidationError`); these
are the ones `get_workflows` catches.  `keyErr` covers `KeyError`, which
`get_workflows` does not catch. -/
inductive AnalyzeErr where
  | valueErr : AnalyzeErr
  | keyErr : AnalyzeErr
deriving DecidableEq

/-- `node.get("inputs", {})`. -/
def nodeInputs (n : JNode) : AList JVal := n.inputs.getD []

/-- `isinstance(value, list) and len(value) >= 1 and isinstance(value[0], str)`. -/
def isRef : JVal → Bool
  | .arr (.str _ :: _) => true
  | _ => false

/-- The source node id of an edge reference. -/
def refSource : JVal → Option String
  | .arr (.str s :: _) => some s
  | _ => none

/-- The `(parameter, source)` pairs among a node's inputs that are edge
references. -/
def refInputs (n : JNode) : List (String × String) :=
  (nodeInputs n).filterMap fun pv =>
    match refSource pv.2 with
    | some s => some (pv.1, s)
    | none => none

/-- `nodes_by_id`: the entries of the workflow that carry a `class_type` key. -/
def nodesById (wf : AList JNode) : AList JNode :=
  wf.filter fun e => e.2.class_type.isSome

/-- The edge list `(from, to, parameter)`. -/
def buildEdges (nodes : AList JNode) : List (String × String × String) :=
  nodes.flatMap fun e => (refInputs e.2).map fun ps => (ps.2, e.1, ps.1)

/-- `incoming[node_id]`: edges into `node_id` coming from its own reference
inputs whose source node exists. -/
def incomingCount (nodes : AList JNode) (n : JNode) : Nat :=
  ((refInputs n).filter fun ps => (aget nodes ps.2).isSome).length

/-- `outgoing[mid]`: reference inputs across all nodes with source `mid`. -/
def outgoingCount (nodes : AList JNode) (mid : String) : Nat :=
  (nodes.map fun e =>
    ((refInputs e.2).filter fun ps => ps.2 = mid).length).sum

/-- The `sources` comprehension.  `nodes_by_id[node_id]['inputs']` raises
`KeyError` when the node has no `inputs` key; the node is kept when its
`inputs` dict is truthy (non-empty). -/
def buildSources (nodes : AList JNode) : List (String × JNode) →
    Except AnalyzeErr (List String)
  | [] => .ok []
  | (nid, n) :: rest =>
    if incomingCount nodes n = 0 then
      match n.inputs with
      | none => .error .keyErr
      | some inp =>
        match buildSources nodes rest with
        | .error e => .error e
        | .ok tail => .ok (if inp.isEmpty then tail else nid :: tail)
    else buildSources nodes rest

/-- The `sinks` comprehension. -/
def buildSinks (nodes : AList JNode) : List String :=
  (nodes.filter fun e => outgoingCount nodes e.1 = 0).map Prod.fst

/-- `external_parameters`: per node, the non-reference inputs, for nodes
where that sub-dict is non-empty. -/
def buildExternal (nodes : AList JNode) : AList (AList JVal) :=
  nodes.filterMap fun e =>
    let ps := (nodeInputs e.2).filter fun pv => !(isRef pv.2)
    if ps.isEmpty then none else some (e.1, ps)

/-- `str.startswith(prefix)`, computed on the character lists so that
concrete workflows evaluate. -/
def strStartsWith (s p : String) : Bool := p.data.isPrefixOf s.data

/-- Prefix marking external input nodes. -/
def inputClassPrefix : String := "ComfyUIDeployExternal"

/-- The four class-type prefixes marking websocket image output nodes. -/
def isOutputClass (ct : String) : Bool :=
  strStartsWith ct "ComfyDeployWebscoketImageOutput" ||
  strStartsWith ct "ComfyDeployWebsocketImageOutput" ||
  strStartsWith ct "ComfyUIDeployWebscoketImageOutput" ||
  strStartsWith ct "ComfyUIDeployWebsocketImageOutput"

/-- `input_nodes`: class-type starts with `ComfyUIDeployExternal`. -/
def inputNodes (nodes : AList JNode) : AList JNode :=
  nodes.filter fun e =>
    match e.2.class_type with
    | some ct => strStartsWith ct inputClassPrefix
    | none => false

/-- `output_nodes`: class-type starts with one of the output prefixes. -/
def outputNodes (nodes : AList JNode) : AList JNode :=
  nodes.filter fun e =>
    match e.2.class_type with
    | some ct => isOutputClass ct
    | none => false

/-- Pydantic coercion to `str | None` for `display_name` / `description`:
a JSON string or null passes, anything else raises `ValidationError`,
which is a `ValueError`. -/
def asStrOrNone : JVal → Except AnalyzeErr (Option String)
  | .str s => .ok (some s)
  | .null => .ok none
  | _ => .error .valueErr

/-- Build one `WorkflowInput` from an input node:
`in_node['inputs']['input_id']` etc., raising `KeyError` on a missing key. -/
def mkInput (nid : String) (n : JNode) : Except AnalyzeErr WorkflowInput :=
  match n.inputs with
  | none => .error .keyErr
  | some inp =>
    match aget inp "input_id" with
    | none => .error .keyErr
    | some v =>
      match aget inp "display_name" with
      | none => .error .keyErr
      | some dn =>
        match aget inp "description" with
        | none => .error .keyErr
        | some ds =>
          match asStrOrNone dn, asStrOrNone ds with
          | .ok dn', .ok ds' =>
            .ok { node_id := nid, value := v, node_type := n.class_type,
                  display_name := dn', description := ds' }
          | .error e, _ => .error e
          | _, .error e => .error e

/-- The descriptor's `inputs` list. -/
def buildInputs : List (String × JNode) → Except AnalyzeErr (List WorkflowInput)
  | [] => .ok []
  | (nid, n) :: rest =>
    match mkInput nid n with
    | .error e => .error e
    | .ok i =>
      match buildInputs rest with
      | .error e => .error e
      | .ok tail => .ok (i :: tail)

/-- The descriptor's `outputs` list: fresh entries with empty
`connection_id` and `output_id`. -/
def buildOutputs (nodes : List (String × JNode)) : List WorkflowWebsocketImageOutput :=
  nodes.map fun e =>
    { node_id := e.1, node_type := e.2.class_type.getD "",
      connection_id := "", output_id := "" }

/-- `analyze_workflow(workflow_id, workflow_path)`.  The file is abstracted
as its parse result: `.error` when `json.load` raises `JSONDecodeError`
(a `ValueError`).  A top-level `nodes` key marks a UI-format definition and
raises `ValueError`. -/
def analyze_workflow (wid : String) (parsed : Except Unit (AList JNode)) :
    Except AnalyzeErr WorkflowDescriptor :=
  match parsed with
  | .error _ => .error .valueErr
  | .ok workflow =>
    if (aget workflow "nodes").isSome then .error .valueErr
    else
      let nodes := nodesById workflow
      match buildSources nodes nodes with
      | .error e => .error e
      | .ok sources =>
        match buildInputs (inputNodes nodes) with
        | .error e => .error e
        | .ok inputs =>
          .ok { workflow_id := wid, workflow_json := workflow, nodes := nodes,
                edges := buildEdges nodes, source_ids := sources,
                sink_ids := buildSinks nodes,
                external_parameters := buildExternal nodes,
                inputs := inputs,
                outputs := buildOutputs (outputNodes nodes) }

/-- `get_workflows()`: analyze every discovered file; skip files whose
analysis raises `ValueError` (malformed JSON, UI-format); keep the ids whose
descriptor has at least one input; a `KeyError` escapes uncaught.  Files are
abstracted as a map from stem to parse result; the returned value abstracts
`dict[str, Path]` as its key set. -/
def get_workflows : AList (Except Unit (AList JNode)) →
    Except AnalyzeErr (AList Unit)
  | [] => .ok []
  | (wid, parsed) :: rest =>
    match analyze_workflow wid parsed with
    | .ok d =>
      match get_workflows rest with
      | .error e => .error e
      | .ok m => .ok (if 0 < d.inputs.length then (wid, ()) :: m else m)
    | .error .valueErr => get_workflows rest
    | .error .keyErr => .error .keyErr

/-!
## `ComfyUIManager` — `src/comfyui/comfyui_manager.py`
-/

/-- The `status` literal of a `WorkflowTask`. -/
inductive JobStatus where
  | queued | running | completed | failed | interrupted
deriving DecidableEq

/-- `"completed", "failed", "interrupted"`. -/
def JobStatus.isTerminal : JobStatus → Bool
  | .completed => true
  | .failed => true
  | .interrupted => true
  | _ => false

/-- `WorkflowTask` (pydantic model in `comfyui_manager.py`). -/
structure WorkflowTask where
  prompt_id : String
  request_id : String
  image_ws_sid : String
  prompt : WorkflowDescriptor
  executing_node_id : Option String
  status : JobStatus

/-- The three TTL maps owned by `ComfyUIManager` (24 h idle timeout, no
eviction callback).  Status callbacks are opaque; they are identified by a
`Nat` handle. -/
structure JobMaps where
  prompt_to_job : TimeoutMap WorkflowTask
  prompt_to_callback : TimeoutMap Nat
  request_to_prompt : TimeoutMap String

/-- Exceptions escaping `run_workflow` (and `queue_workflow`). -/
inductive RunErr where
  | indexError : RunErr
  | keyErr : RunErr
  | submitFailed : RunErr
  | noPromptId : RunErr
deriving DecidableEq

/-- `descriptor.nodes[nid]["inputs"][key] = v`.  Raises `KeyError` when the
node id or its `inputs` key is missing.  The node dict is shared between
`descriptor.nodes` and `descriptor.workflow_json`, so the update is written
into both. -/
def setNodeInputKey (d : WorkflowDescriptor) (nid key : String) (v : JVal) :
    Except RunErr WorkflowDescriptor :=
  match aget d.nodes nid with
  | none => .error .keyErr
  | some node =>
    match node.inputs with
    | none => .error .keyErr
    | some inp =>
      let node' : JNode := { node with inputs := some (aset inp key v) }
      .ok { d with nodes := aset d.nodes nid node',
                   workflow_json := aset d.workflow_json nid node' }

/-- `for new_input in descriptor.inputs: nodes[...]["inputs"]["input_id"] = value`. -/
def applyInputs : WorkflowDescriptor → List WorkflowInput →
    Except RunErr WorkflowDescriptor
  | d, [] => .ok d
  | d, i :: rest =>
    match setNodeInputKey d i.node_id "input_id" i.value with
    | .error e => .error e
    | .ok d' => applyInputs d' rest

/-- `for new_output in descriptor.outputs:` write `output_id` and
`client_id` from the output entry's stored fields. -/
def applyOutputs : WorkflowDescriptor → List WorkflowWebsocketImageOutput →
    Except RunErr WorkflowDescriptor
  | d, [] => .ok d
  | d, o :: rest =>
    match setNodeInputKey d o.node_id "output_id" (.str o.output_id) with
    | .error e => .error e
    | .ok d1 =>
      match setNodeInputKey d1 o.node_id "client_id" (.str o.connection_id) with
      | .error e => .error e
      | .ok d2 => applyOutputs d2 rest

/-- The rewrite step of `run_workflow` (lines 173–182): assign
`outputs[0].connection_id = sid` and `outputs[0].output_id = request_id`
(an `IndexError` when `outputs` is empty), replace each declared input's
`input_id`, then write every output entry's stored `output_id` /
`connection_id` into its node. -/
def rewriteDescriptor (sid request_id : String) (d : WorkflowDescriptor) :
    Except RunErr WorkflowDescriptor :=
  match d.outputs with
  | [] => .error .indexError
  | o0 :: rest =>
    let o0' := { o0 with connection_id := sid, output_id := request_id }
    let d1 := { d with outputs := o0' :: rest }
    match applyInputs d1 d1.inputs with
    | .error e => .error e
    | .ok d2 => applyOutputs d2 d2.outputs

/-- The engine's response to `POST /prompt`. -/
structure EngineEnv where
  postStatus : Nat
  promptId : Option String

/-- The observable outcome of one `run_workflow` call: the raised exception
or the rewritten descriptor and created task, whether the POST to the
engine happened, and the job maps afterwards. -/
structure RunOutcome where
  result : Except RunErr (WorkflowDescriptor × WorkflowTask)
  posted : Bool
  maps : JobMaps

/-- `ComfyUIManager.run_workflow`: rewrite, POST the (aliased, rewritten)
`workflow_json`, create the `queued` task, register it in the three maps,
and fire the status callback once.  A failing rewrite raises before the
POST and leaves the maps untouched. -/
def run_workflow (sid request_id : String) (d : WorkflowDescriptor) (cb : Nat)
    (env : EngineEnv) (now : Nat) (jm : JobMaps) : RunOutcome :=
  match rewriteDescriptor sid request_id d with
  | .error e => { result := .error e, posted := false, maps := jm }
  | .ok d' =>
    if env.postStatus ≠ 200 then
      { result := .error .submitFailed, posted := true, maps := jm }
    else
      match env.promptId with
      | none => { result := .error .noPromptId, posted := true, maps := jm }
      | some pid =>
        if pid = "" then { result := .error .noPromptId, posted := true, maps := jm }
        else
          let task : WorkflowTask :=
            { prompt_id := pid, request_id := request_id, image_ws_sid := sid,
              prompt := d', executing_node_id := none, status := .queued }
          { result := .ok (d', task), posted := true,
            maps := { prompt_to_job := jm.prompt_to_job.set now pid task,
                      prompt_to_callback := jm.prompt_to_callback.set now pid cb,
                      request_to_prompt :=
                        jm.request_to_prompt.set now request_id pid } }

/-- Errors surfacing from `queue_workflow`. -/
inductive QueueErr where
  | notFound : QueueErr
  | runErr : RunErr → QueueErr
  | unknownWorkflow : QueueErr
deriving DecidableEq

/-- The observable outcome of `POST /workflows/{id}/queue`: result,
analysis cache afterwards (`analyze_workflow` is `lru_cache`d, so the
descriptor it hands out is the cached instance itself), job maps
afterwards, and whether a POST reached the engine. -/
structure QueueOutcome where
  result : Except QueueErr String
  cache : AList WorkflowDescriptor
  maps : JobMaps
  posted : Bool

/-- `queue_workflow` (`src/api/routers/workflows.py`): resolve
`cid → sid` (404 when absent), fetch the cached descriptor (a missing cache
entry models the `KeyError` of `get_workflow_path_by_id` for an unknown
id), overwrite `descriptor.inputs = inputs` *on the cached instance*, then
run the workflow; the rewrites of `run_workflow` mutate that same cached
instance, so the cache ends up holding the rewritten descriptor. -/
def queue_workflow (cache : AList WorkflowDescriptor) (wid : String)
    (userInputs : List WorkflowInput) (sidOfCid : Option String)
    (request_id : String) (cb : Nat) (env : EngineEnv) (now : Nat)
    (jm : JobMaps) : QueueOutcome :=
  match sidOfCid with
  | none => { result := .error .notFound, cache := cache, maps := jm, posted := false }
  | some sid =>
    match aget cache wid with
    | none =>
      { result := .error .unknownWorkflow, cache := cache, maps := jm, posted := false }
    | some d =>
      let d1 := { d with inputs := userInputs }
      let cache1 := aset cache wid d1
      let r := run_workflow sid request_id d1 cb env now jm
      match r.result with
      | .error e =>
        { result := .error (.runErr e), cache := cache1, maps := r.maps,
          posted := r.posted }
      | .ok (d2, _) =>
        { result := .ok request_id, cache := aset cache1 wid d2,
          maps := r.maps, posted := r.posted }

/-!
## The status listener — `ComfyUIManager._monitor_status_socket`
-/

/-- One decoded message on the status channel: `type`, `data.prompt_id`,
`data.node`, each possibly absent. -/
structure StatusEvent where
  type : Option String
  prompt_id : Option String
  node : Option String

/-- Python truthiness of an optional string (`if not prompt_id: continue`). -/
def truthyStr : Option String → Bool
  | none => false
  | some s => !(s == "")

/-- The `Job.state` transition table of the listener. -/
def statusFor : Option String → Option JobStatus
  | some "execution_start" => some .running
  | some "executing" => some .running
  | some "execution_success" => some .completed
  | some "execution_error" => some .failed
  | some "execution_interrupted" => some .interrupted
  | some "execution_cached" => some .completed
  | _ => none

/-- Processing of one status message by `_monitor_status_socket`
(lines 316–359): skip on a falsy `prompt_id`; refresh the job entry; fetch
job and callback, skipping when either is missing; compute the new state,
skipping unknown types; mutate the job object in place (visible through
the map alias); invoke the callback; on a terminal state pop the job, the
callback, and the `request_id → prompt_id` entry.  Returns the new maps
and the callback invocations `(handle, task snapshot)`. -/
def process_status_event (st : JobMaps) (now : Nat) (ev : StatusEvent) :
    JobMaps × List (Nat × WorkflowTask) :=
  match ev.prompt_id with
  | none => (st, [])
  | some pid =>
    if pid = "" then (st, [])
    else
      let jobs1 := st.prompt_to_job.refresh now pid
      match jobs1.get pid, st.prompt_to_callback.get pid with
      | some wf, some cb =>
        match statusFor ev.type with
        | none => ({ st with prompt_to_job := jobs1 }, [])
        | some ns =>
          let wf' : WorkflowTask :=
            { wf with status := ns,
                      executing_node_id :=
                        if ev.type = some "executing" then ev.node
                        else wf.executing_node_id }
          let jobs2 := jobs1.mutate pid wf'
          if ns.isTerminal then
            ({ prompt_to_job := (jobs2.pop pid).1,
               prompt_to_callback := (st.prompt_to_callback.pop pid).1,
               request_to_prompt := (st.request_to_prompt.pop wf'.request_id).1 },
             [(cb, wf')])
          else
            ({ st with prompt_to_job := jobs2 }, [(cb, wf')])
      | _, _ => ({ st with prompt_to_job := jobs1 }, [])

/-!
## `connect_to_backend` — `ComfyUIManager.connect_to_backend`
-/

/-- `MAX_RETRIES` / `RETRY_DELAY` (lines 28–29). -/
def MAX_RETRIES : Nat := 5

def RETRY_DELAY : Nat := 2

/-- What one dial attempt observes: an exception anywhere in
dial/recv/parse, or a parsed handshake whose `data.sid` field is the given
optional string. -/
inductive AttemptOutcome where
  | exn : AttemptOutcome
  | handshake : Option String → AttemptOutcome

/-- An attempt fails when it raises or when the handshake `sid` is falsy. -/
def attemptFails : AttemptOutcome → Bool
  | .exn => true
  | .handshake sid => !(truthyStr sid)

/-- The retry loop of `connect_to_backend`, parametrised by the outcome of
each attempt.  On a truthy handshake `sid` the loop returns it; on a falsy
`sid` the socket is closed and the next attempt starts immediately; on an
exception the loop sleeps `RETRY_DELAY * attempt` seconds first.  Returns
the successful `sid` (or `none` for the final `ConnectionError`) and the
list of sleeps performed. -/
def connectGo (env : Nat → AttemptOutcome) : Nat → Nat → Option String × List Nat
  | _, 0 => (none, [])
  | attempt, remaining + 1 =>
    match env attempt with
    | .handshake (some s) =>
      if s = "" then connectGo env (attempt + 1) remaining
      else (some s, [])
    | .handshake none => connectGo env (attempt + 1) remaining
    | .exn =>
      let r := connectGo env (attempt + 1) remaining
      (r.1, RETRY_DELAY * attempt :: r.2)

/-- `connect_to_backend`: up to `MAX_RETRIES` attempts starting at 1. -/
def connect_to_backend (env : Nat → AttemptOutcome) : Option String × List Nat :=
  connectGo env 1 MAX_RETRIES

/-!
## The `backend_to_client` pump — `src/comfyui/connection_manager.py`,
lines 265–298

The pump is a cooperative loop; it is modelled as a fuel-indexed transition
function over an environment giving the outcome of the n-th `recv()` on the
backend socket and of the n-th reconnect attempt.  Its client-visible
behaviour is the list of actions performed on the client WebSocket, plus
the list of back-off sleeps.
-/

/-- Outcome of one `backend_ws.recv()`. -/
inductive RecvOutcome where
  | bytesMsg : List Nat → RecvOutcome
  | textMsg : String → RecvOutcome
  | errRecv : RecvOutcome

/-- Outcome of one `connect_to_backend(sid)` call inside the reconnect loop. -/
inductive ReconnectOutcome where
  | ok : ReconnectOutcome
  | fail : ReconnectOutcome

/-- An action the pump performs on the client WebSocket. -/
inductive ClientAction where
  | sendBytes : List Nat → ClientAction
  | sendText : String → ClientAction
  | close : Nat → ClientAction
deriving DecidableEq

/-- The environment seen by one pump run. -/
structure PumpEnv where
  recv : Nat → RecvOutcome
  reconnect : Nat → ReconnectOutcome

/-- Which loop of the pump is executing. -/
inductive PumpMode where
  | recvLoop : PumpMode
  | reconnectLoop : PumpMode

/-- One pump run with the given fuel.  State: mode, current back-off,
next `recv` index, next reconnect index.  In the receive loop a binary
message is forwarded to the client with its first 8 bytes stripped, a text
message is dropped, and both reset the back-off to 1; an exception enters
the reconnect loop.  Each reconnect iteration sleeps the current back-off
and then dials: success resets the back-off to 1 and resumes receiving,
failure doubles the back-off up to 128 and retries — indefinitely.
Returns (client actions, sleeps). -/
def pumpGo (env : PumpEnv) :
    Nat → PumpMode → Nat → Nat → Nat → List ClientAction × List Nat
  | 0, _, _, _, _ => ([], [])
  | fuel + 1, .recvLoop, _, r, c =>
    match env.recv r with
    | .bytesMsg payload =>
      let res := pumpGo env fuel .recvLoop 1 (r + 1) c
      (.sendBytes (payload.drop 8) :: res.1, res.2)
    | .textMsg _ => pumpGo env fuel .recvLoop 1 (r + 1) c
    | .errRecv => pumpGo env fuel .reconnectLoop 1 (r + 1) c
  | fuel + 1, .reconnectLoop, backoff, r, c =>
    match env.reconnect c with
    | .ok =>
      let res := pumpGo env fuel .recvLoop 1 r (c + 1)
      (res.1, backoff :: res.2)
    | .fail =>
      let res := pumpGo env fuel .reconnectLoop (min (backoff * 2) 128) r (c + 1)
      (res.1, backoff :: res.2)

/-- A full pump run: starts in the receive loop with back-off 1. -/
def backend_to_client (env : PumpEnv) (fuel : Nat) : List ClientAction × List Nat :=
  pumpGo env fuel .recvLoop 1 0 0

/-- The back-off sequence produced by a run of consecutive reconnect
failures starting from back-off `b`. -/
def expBackoffSeq (b : Nat) : Nat → List Nat
  | 0 => []
  | n + 1 => b :: expBackoffSeq (min (b * 2) 128) n

/-!
## `ConnectionManager` index maps — `src/comfyui/connection_manager.py`

Only the two cross-index dictionaries `_cid_sid_map` / `_sid_cid_map` are
modelled; the operations below are exactly their effects in
`_evict_client_callback` (lines 92–97), `_evict_server_callback`
(lines 122–127) and `accept_client_connection` (lines 326–350).
`disconnect` touches the index maps only through the two eviction
callbacks, which fire from `TimeoutMap.pop`.
-/

/-- The two cross-index maps. -/
structure ConnState where
  cid_sid : AList String
  sid_cid : AList String

/-- Index-map cleanup of `_evict_client_callback`: when `cid` is indexed,
pop it and the paired `sid` from the reverse index. -/
def evictClientMaps (st : ConnState) (cid : String) : ConnState :=
  match aget st.cid_sid cid with
  | some sid =>
    { cid_sid := aerase st.cid_sid cid, sid_cid := aerase st.sid_cid sid }
  | none => st

/-- Index-map cleanup of `_evict_server_callback`, symmetric. -/
def evictServerMaps (st : ConnState) (sid : String) : ConnState :=
  match aget st.sid_cid sid with
  | some cid =>
    { cid_sid := aerase st.cid_sid cid, sid_cid := aerase st.sid_cid sid }
  | none => st

/-- Result of `accept_client_connection` as far as the index maps are
concerned. -/
inductive AcceptResult where
  /-- The pairing was installed. -/
  | ok : ConnState → AcceptResult
  /-- `sid in self._server_connections` raised `TypeError` (a `TimeoutMap`
  supports neither `__contains__` nor iteration), so the accept path
  aborted with the maps untouched. -/
  | typeErr : ConnState → AcceptResult

/-- `accept_client_connection`: after registering the client socket the
code reads `sid = self._cid_sid_map.get(connection_id)`.  When that is
truthy, evaluating `sid in self._server_connections` raises `TypeError`
before any index-map update.  Otherwise a fresh backend connection is
dialed (its backend-assigned session id is the parameter `freshSid`) and
the pair is recorded in both indexes. -/
def accept_client_connection (st : ConnState) (cid freshSid : String) :
    AcceptResult :=
  match aget st.cid_sid cid with
  | some sid0 =>
    if sid0 = "" then
      .ok { cid_sid := aset st.cid_sid cid freshSid,
            sid_cid := aset st.sid_cid freshSid cid }
    else .typeErr st
  | none =>
    .ok { cid_sid := aset st.cid_sid cid freshSid,
          sid_cid := aset st.sid_cid freshSid cid }

/-- The two index maps are mutually inverse on live pairs and hold no
falsy session ids (`connect_to_backend` only ever returns a truthy `sid`,
cf. `if sid: return sid, backend_ws`). -/
def ConnState.Inv (st : ConnState) : Prop :=
  (∀ c s, aget st.cid_sid c = some s ↔ aget st.sid_cid s = some c) ∧
  (∀ c s, aget st.cid_sid c = some s → s ≠ "")

/-- One step of the connection manager, as far as the index maps go.  The
accept step requires the backend-assigned session id to be fresh and
truthy, which is what the backend guarantees for a dial without
`clientId`. -/
inductive ConnStep : ConnState → ConnState → Prop where
  | accept {st st' : ConnState} (cid freshSid : String)
      (hfresh : aget st.sid_cid freshSid = none) (hne : freshSid ≠ "")
      (h : accept_client_connection st cid freshSid = .ok st') :
      ConnStep st st'
  | acceptRaise {st st' : ConnState} (cid freshSid : String)
      (h : accept_client_connection st cid freshSid = .typeErr st') :
      ConnStep st st'
  | evictClient {st : ConnState} (cid : String) :
      ConnStep st (evictClientMaps st cid)
  | evictServer {st : ConnState} (sid : String) :
      ConnStep st (evictServerMaps st sid)

/-!
## Concrete instances used by the counterexamples and witnesses
-/

/-- Witness state for C5: one queued job `P` with request id `R`. -/
def jobMapsW : JobMaps :=
  let dW : WorkflowDescriptor :=
    { workflow_id := "w", workflow_json := [], nodes := [], edges := [],
      source_ids := [], sink_ids := [], external_parameters := [],
      inputs := [], outputs := [] }
  let taskW : WorkflowTask :=
    { prompt_id := "P", request_id := "R", image_ws_sid := "S",
      prompt := dW, executing_node_id := none, status := .queued }
  { prompt_to_job :=
      { data := [("P", taskW)], timestamps := [("P", 0)], idle_timeout := 86400,
        heap := [(86400, "P")], truthy := fun _ => true, hasEvict := false },
    prompt_to_callback :=
      { data := [("P", 7)], timestamps := [("P", 0)], idle_timeout := 86400,
        heap := [(86400, "P")], truthy := fun _ => true, hasEvict := false },
    request_to_prompt :=
      { data := [("R", "P")], timestamps := [("R", 0)], idle_timeout := 86400,
        heap := [(86400, "R")], truthy := fun s => !(s == ""), hasEvict := false } }

/-- The terminal event driving the C5 witness. -/
def eventW : StatusEvent :=
  { type := some "execution_success", prompt_id := some "P", node := none }

/-- The map refuting C6 as stated: the stored value is the empty string,
which is falsy in Python, and an eviction callback is configured. -/
def tmC6 : TimeoutMap String :=
  { data := [("k", "")], timestamps := [("k", 0)], idle_timeout := 3600,
    heap := [(3600, "k")], truthy := fun s => !(s == ""), hasEvict := true }

/-- Witness map for the amended C6: a truthy stored value. -/
def tmC6W : TimeoutMap String :=
  { data := [("k", "x")], timestamps := [("k", 0)], idle_timeout := 3600,
    heap := [(3600, "k")], truthy := fun s => !(s == ""), hasEvict := true }

/-- Whether an attempt outcome is an exception (as opposed to a parsed
handshake). -/
def isExn : AttemptOutcome → Bool
  | .exn => true
  | _ => false

/-- The `sid` a dial attempt would return, when it succeeds. -/
def attemptSid : AttemptOutcome → Option String
  | .handshake (some s) => if s = "" then none else some s
  | _ => none

/-- The first attempt index in the window `[a, a + r)` that succeeds. -/
def firstSuccessIn (env : Nat → AttemptOutcome) (a r : Nat) : Option Nat :=
  ((List.range' a r).filter fun i => !(attemptFails (env i))).head?

/-- The attempt indices the loop executes before stopping, within the
window `[a, a + r)`: everything before the first success, or the whole
window when every attempt fails. -/
def execIn (env : Nat → AttemptOutcome) (a r : Nat) : List Nat :=
  match firstSuccessIn env a r with
  | some i => List.range' a (i - a)
  | none => List.range' a r

/-- The attempt outcomes refuting C8 as stated: the first attempt fails
because the handshake carries an empty `sid`, the second succeeds. -/
def envC8 : Nat → AttemptOutcome
  | 1 => .handshake (some "")
  | 2 => .handshake (some "S")
  | _ => .exn

/-- All-exception environment for the C8 witness. -/
def envC8W : Nat → AttemptOutcome := fun _ => .exn

/-- The environment for the C3 counterexample: the first `recv` raises and
every reconnect attempt fails. -/
def pumpEnvCF : PumpEnv :=
  { recv := fun _ => .errRecv, reconnect := fun _ => .fail }

/-- A concrete live pair for the C4 witness. -/
def connStateW : ConnState := { cid_sid := [("c", "s")], sid_cid := [("s", "c")] }

/-- Empty job maps (fresh `ComfyUIManager` state). -/
def jobMapsEmpty : JobMaps :=
  { prompt_to_job :=
      { data := [], timestamps := [], idle_timeout := 86400, heap := [],
        truthy := fun _ => true, hasEvict := false },
    prompt_to_callback :=
      { data := [], timestamps := [], idle_timeout := 86400, heap := [],
        truthy := fun _ => true, hasEvict := false },
    request_to_prompt :=
      { data := [], timestamps := [], idle_timeout := 86400, heap := [],
        truthy := fun s => !(s == ""), hasEvict := false } }

/-- A workflow file with one external input node and no websocket image
output node. -/
def wfC10 : AList JNode :=
  [("1", { class_type := some "ComfyUIDeployExternalText",
           inputs := some [("input_id", .str "https://ex/img.png"),
                           ("display_name", .str "img"),
                           ("description", .str "the image")] })]

/-- The descriptor `analyze_workflow` produces for `wfC10`: at least one
input, no outputs. -/
def dC10 : WorkflowDescriptor :=
  { workflow_id := "wf", workflow_json := wfC10, nodes := wfC10,
    edges := [], source_ids := ["1"], sink_ids := ["1"],
    external_parameters :=
      [("1", [("input_id", .str "https://ex/img.png"),
              ("display_name", .str "img"),
              ("description", .str "the image")])],
    inputs := [{ node_id := "1", value := .str "https://ex/img.png",
                 node_type := some "ComfyUIDeployExternalText",
                 display_name := some "img", description := some "the image" }],
    outputs := [] }

/-- `descriptor.nodes[nid]["inputs"][key]`, as an `Option`. -/
def nodeInputGet (nodes : AList JNode) (nid key : String) : Option JVal :=
  match aget nodes nid with
  | some n =>
    match n.inputs with
    | some inp => aget inp key
    | none => none
  | none => none

/-- A descriptor with two websocket image output nodes, as produced by
`analyze_workflow` (both output entries carry empty `connection_id` /
`output_id`). -/
def dC1 : WorkflowDescriptor :=
  { workflow_id := "w2",
    workflow_json :=
      [("n1", { class_type := some "ComfyUIDeployWebsocketImageOutput",
                inputs := some [] }),
       ("n2", { class_type := some "ComfyUIDeployWebsocketImageOutput",
                inputs := some [] })],
    nodes :=
      [("n1", { class_type := some "ComfyUIDeployWebsocketImageOutput",
                inputs := some [] }),
       ("n2", { class_type := some "ComfyUIDeployWebsocketImageOutput",
                inputs := some [] })],
    edges := [], source_ids := [], sink_ids := [], external_parameters := [],
    inputs := [],
    outputs :=
      [{ node_id := "n1", node_type := "ComfyUIDeployWebsocketImageOutput",
         connection_id := "", output_id := "" },
       { node_id := "n2", node_type := "ComfyUIDeployWebsocketImageOutput",
         connection_id := "", output_id := "" }] }

/-- The result of the C1 rewrite on the two-output descriptor. -/
def dC1done : WorkflowDescriptor :=
  (rewriteDescriptor "S" "R" dC1).toOption.getD dC1

/-- The cached descriptor for the C2 counterexample: one external input
node holding the analysis-time default value `orig`, one output node. -/
def dC2 : WorkflowDescriptor :=
  { workflow_id := "w",
    workflow_json :=
      [("i", { class_type := some "ComfyUIDeployExternalText",
               inputs := some [("input_id", .str "orig"),
                               ("display_name", .str "n"),
                               ("description", .str "d")] }),
       ("o", { class_type := some "ComfyUIDeployWebsocketImageOutput",
               inputs := some [] })],
    nodes :=
      [("i", { class_type := some "ComfyUIDeployExternalText",
               inputs := some [("input_id", .str "orig"),
                               ("display_name", .str "n"),
                               ("description", .str "d")] }),
       ("o", { class_type := some "ComfyUIDeployWebsocketImageOutput",
               inputs := some [] })],
    edges := [], source_ids := [], sink_ids := [], external_parameters := [],
    inputs := [{ node_id := "i", value := .str "orig",
                 node_type := some "ComfyUIDeployExternalText",
                 display_name := some "n", description := some "d" }],
    outputs := [{ node_id := "o",
                  node_type := "ComfyUIDeployWebsocketImageOutput",
                  connection_id := "", output_id := "" }] }

/-- The caller's inputs for the C2 counterexample. -/
def userInputsC2 : List WorkflowInput := [{ node_id := "i", value := .str "NEW" }]

/-- The C2 queue call on the cache holding `dC2`. -/
def queueC2 : QueueOutcome :=
  queue_workflow [("w", dC2)] "w" userInputsC2 (some "S") "R" 7
    { postStatus := 200, promptId := some "P" } 0 jobMapsEmpty

/-- A UI-format workflow file (top-level `nodes` key). -/
def wfUI : AList JNode := [("nodes", { class_type := none, inputs := none })]

/-- An API-format workflow with no external input node. -/
def wfNoIn : AList JNode :=
  [("k", { class_type := some "KSampler", inputs := some [] })]

/-- The file environment of the C9 witness: one valid workflow, one
UI-format file, one input-less workflow. -/
def filesC9 : AList (Except Unit (AList JNode)) :=
  [("wf", .ok wfC10), ("ui", .ok wfUI), ("noin", .ok wfNoIn)]

/-- The empty map used as the C7 witness. -/
def tmEmpty : TimeoutMap String :=
  { data := [], timestamps := [], idle_timeout := 3600, heap := [],
    truthy := fun s => !(s == ""), hasEvict := false }

/-!
## Association-list and heap lemmas
-/

theorem aget_aerase {V : Type} (l : AList V) (k k' : String) :
    aget (aerase l k) k' = if k' = k then none else aget l k' := by
  induction l with
  | nil => by_cases h : k' = k <;> simp [aerase, aget, h]
  | cons e rest ih =>
    obtain ⟨k₀, v⟩ := e
    by_cases hk : k₀ = k
    · subst hk
      by_cases hk' : k' = k₀
      · subst hk'; simpa [aerase, aget] using ih
      · have hne : ¬ k₀ = k' := fun h => hk' h.symm
        simp [aerase, aget, hne, ih]
    · by_cases hk' : k₀ = k'
      · subst hk'
        simp [aerase, aget, hk, ih]
      · simp [aerase, aget, hk, hk', ih]

theorem aget_aerase_self {V : Type} (l : AList V) (k : String) :
    aget (aerase l k) k = none := by simp [aget_aerase]

theorem aget_aerase_ne {V : Type} (l : AList V) (k k' : String) (h : k' ≠ k) :
    aget (aerase l k) k' = aget l k' := by simp [aget_aerase, h]

theorem aget_aset_self {V : Type} (l : AList V) (k : String) (v : V) :
    aget (aset l k v) k = some v := by
  simp [aset, aget]

theorem aget_aset_ne {V : Type} (l : AList V) (k k' : String) (v : V) (h : k' ≠ k) :
    aget (aset l k v) k' = aget l k' := by
  have hne : ¬ k = k' := fun hh => h hh.symm
  simp [aset, aget, hne, aget_aerase_ne l k k' h]

theorem aget_aset {V : Type} (l : AList V) (k k' : String) (v : V) :
    aget (aset l k v) k' = if k' = k then some v else aget l k' := by
  by_cases h : k' = k
  · subst h; simp [aget_aset_self]
  · simp [h, aget_aset_ne l k k' v h]

theorem mem_heapPush (h : List (Nat × String)) (e e' : Nat × String) :
    e' ∈ heapPush h e ↔ e' = e ∨ e' ∈ h := by
  induction h with
  | nil => simp [heapPush]
  | cons x xs ih =>
    by_cases hle : pairLe e x
    · simp [heapPush, hle]
    · simp [heapPush, hle, ih]
      tauto

namespace TimeoutMap

variable {V : Type}

theorem set_data (m : TimeoutMap V) (now : Nat) (k : String) (v : V) :
    (m.set now k v).data = aset m.data k v := rfl

theorem set_ts (m : TimeoutMap V) (now : Nat) (k : String) (v : V) :
    (m.set now k v).timestamps = aset m.timestamps k now := rfl

theorem set_heap (m : TimeoutMap V) (now : Nat) (k : String) (v : V) :
    (m.set now k v).heap = heapPush m.heap (now + m.idle_timeout, k) := rfl

theorem set_timeout (m : TimeoutMap V) (now : Nat) (k : String) (v : V) :
    (m.set now k v).idle_timeout = m.idle_timeout := rfl

theorem set_Wf (m : TimeoutMap V) (hm : m.Wf) (now : Nat) (k : String) (v : V) :
    (m.set now k v).Wf := by
  obtain ⟨hkeys, hcov⟩ := hm
  constructor
  · intro q
    rw [set_data, set_ts, aget_aset, aget_aset]
    by_cases h : q = k
    · simp [h]
    · simp [h, hkeys q]
  · intro q last hlast
    rw [set_ts, aget_aset] at hlast
    rw [set_heap, set_timeout]
    by_cases h : q = k
    · rw [if_pos h] at hlast
      obtain rfl : now = last := Option.some.inj hlast
      exact ⟨now + m.idle_timeout, (mem_heapPush _ _ _).mpr (Or.inl (by rw [h])),
        le_refl _⟩
    · rw [if_neg h] at hlast
      obtain ⟨d, hd, hle⟩ := hcov q last hlast
      exact ⟨d, (mem_heapPush _ _ _).mpr (Or.inr hd), hle⟩

theorem refresh_eq_of_mem (m : TimeoutMap V) (now : Nat) (k : String) (v0 : V)
    (hk : aget m.data k = some v0) :
    m.refresh now k =
      { m with timestamps := aset m.timestamps k now,
               heap := heapPush m.heap (now + m.idle_timeout, k) } := by
  simp [TimeoutMap.refresh, hk]

theorem refresh_eq_of_not_mem (m : TimeoutMap V) (now : Nat) (k : String)
    (hk : aget m.data k = none) : m.refresh now k = m := by
  simp [TimeoutMap.refresh, hk]

theorem refresh_Wf (m : TimeoutMap V) (hm : m.Wf) (now : Nat) (k : String) :
    (m.refresh now k).Wf := by
  obtain ⟨hkeys, hcov⟩ := hm
  cases hk : aget m.data k with
  | none => rw [refresh_eq_of_not_mem m now k hk]; exact ⟨hkeys, hcov⟩
  | some v0 =>
    rw [refresh_eq_of_mem m now k v0 hk]
    constructor
    · intro q
      show (aget m.data q).isSome ↔ (aget (aset m.timestamps k now) q).isSome
      rw [aget_aset]
      by_cases h : q = k
      · subst h; simp [hk]
      · simp [h, hkeys q]
    · intro q last hlast
      replace hlast : aget (aset m.timestamps k now) q = some last := hlast
      rw [aget_aset] at hlast
      show ∃ d, (d, q) ∈ heapPush m.heap (now + m.idle_timeout, k) ∧
        last + m.idle_timeout ≤ d
      by_cases h : q = k
      · rw [if_pos h] at hlast
        obtain rfl : now = last := Option.some.inj hlast
        exact ⟨now + m.idle_timeout, (mem_heapPush _ _ _).mpr (Or.inl (by rw [h])),
          le_refl _⟩
      · rw [if_neg h] at hlast
        obtain ⟨d, hd, hle⟩ := hcov q last hlast
        exact ⟨d, (mem_heapPush _ _ _).mpr (Or.inr hd), hle⟩

theorem pop_data (m : TimeoutMap V) (k : String) :
    ((m.pop k).1).data = aerase m.data k := by
  cases h : aget m.data k <;> simp [TimeoutMap.pop, h]

theorem pop_ts (m : TimeoutMap V) (k : String) :
    ((m.pop k).1).timestamps = aerase m.timestamps k := by
  cases h : aget m.data k <;> simp [TimeoutMap.pop, h]

theorem pop_heap (m : TimeoutMap V) (k : String) : ((m.pop k).1).heap = m.heap := by
  cases h : aget m.data k <;> simp [TimeoutMap.pop, h]

theorem pop_timeout (m : TimeoutMap V) (k : String) :
    ((m.pop k).1).idle_timeout = m.idle_timeout := by
  cases h : aget m.data k <;> simp [TimeoutMap.pop, h]

theorem pop_Wf (m : TimeoutMap V) (hm : m.Wf) (k : String) : ((m.pop k).1).Wf := by
  obtain ⟨hkeys, hcov⟩ := hm
  constructor
  · intro q
    rw [pop_data, pop_ts, aget_aerase, aget_aerase]
    by_cases h : q = k
    · simp [h]
    · simp [h, hkeys q]
  · intro q last hlast
    rw [pop_ts, aget_aerase] at hlast
    rw [pop_heap, pop_timeout]
    by_cases h : q = k
    · rw [if_pos h] at hlast; exact Option.noConfusion hlast
    · rw [if_neg h] at hlast
      exact hcov q last hlast

theorem cleanupLoop_cover (now timeout : Nat) (h : List (Nat × String))
    (ts : AList Nat) (k : String) (last : Nat) (hts : aget ts k = some last)
    (d : Nat) (hd : (d, k) ∈ h) (hle : last + timeout ≤ d) :
    k ∈ (cleanupLoop now timeout h ts).2 ∨
      ∃ d', (d', k) ∈ (cleanupLoop now timeout h ts).1 ∧ last + timeout ≤ d' := by
  induction h with
  | nil => simp at hd
  | cons e rest ih =>
    obtain ⟨exp, k₀⟩ := e
    by_cases hexp : exp ≤ now
    · cases hts0 : aget ts k₀ with
      | none =>
        rcases List.mem_cons.mp hd with heq | hmem
        · exfalso
          have hk : k = k₀ := congrArg Prod.snd heq
          rw [hk, hts0] at hts; exact Option.noConfusion hts
        · simpa [cleanupLoop, hexp, hts0] using ih hmem
      | some last₀ =>
        by_cases hdue : last₀ + timeout ≤ now
        · by_cases hk : k = k₀
          · subst hk; left; simp [cleanupLoop, hexp, hts0, hdue]
          · rcases List.mem_cons.mp hd with heq | hmem
            · exact absurd (congrArg Prod.snd heq) hk
            · rcases ih hmem with hin | ⟨d', hd', hle'⟩
              · left; simp [cleanupLoop, hexp, hts0, hdue, hin]
              · right; exact ⟨d', by simpa [cleanupLoop, hexp, hts0, hdue] using hd', hle'⟩
        · right
          by_cases hk : k = k₀
          · have hlast : last₀ = last := by rw [hk, hts0] at hts; exact Option.some.inj hts
            refine ⟨last₀ + timeout, ?_, by rw [hlast]⟩
            simp [cleanupLoop, hexp, hts0, hdue, mem_heapPush, hk]
          · rcases List.mem_cons.mp hd with heq | hmem
            · exact absurd (congrArg Prod.snd heq) hk
            · exact ⟨d, by simp [cleanupLoop, hexp, hts0, hdue, mem_heapPush, hmem], hle⟩
    · right; exact ⟨d, by simpa [cleanupLoop, hexp] using hd, hle⟩

theorem popMany_heap (ks : List String) (m : TimeoutMap V) :
    ((m.popMany ks).1).heap = m.heap := by
  induction ks generalizing m with
  | nil => rfl
  | cons k ks ih => simp [popMany, ih, pop_heap, pop_timeout]

theorem popMany_timeout (ks : List String) (m : TimeoutMap V) :
    ((m.popMany ks).1).idle_timeout = m.idle_timeout := by
  induction ks generalizing m with
  | nil => rfl
  | cons k ks ih => simp [popMany, ih, pop_heap, pop_timeout]

theorem popMany_data (ks : List String) (m : TimeoutMap V) (k : String) :
    aget ((m.popMany ks).1).data k =
      if k ∈ ks then none else aget m.data k := by
  induction ks generalizing m with
  | nil => simp [popMany]
  | cons k₀ ks ih =>
    simp only [popMany, ih, pop_data]
    by_cases hk : k = k₀
    · subst hk
      by_cases hks : k ∈ ks <;> simp [hks, aget_aerase_self]
    · simp [List.mem_cons, hk, aget_aerase_ne _ _ _ hk]

theorem popMany_ts (ks : List String) (m : TimeoutMap V) (k : String) :
    aget ((m.popMany ks).1).timestamps k =
      if k ∈ ks then none else aget m.timestamps k := by
  induction ks generalizing m with
  | nil => simp [popMany]
  | cons k₀ ks ih =>
    simp only [popMany, ih, pop_ts]
    by_cases hk : k = k₀
    · subst hk
      by_cases hks : k ∈ ks <;> simp [hks, aget_aerase_self]
    · simp [List.mem_cons, hk, aget_aerase_ne _ _ _ hk]

theorem cleanup_Wf (m : TimeoutMap V) (hm : m.Wf) (now : Nat) :
    ((m.cleanup now).1).Wf := by
  obtain ⟨hkeys, hcov⟩ := hm
  show (TimeoutMap.popMany _ _).1.Wf
  constructor
  · intro k
    rw [popMany_data, popMany_ts]
    by_cases h : k ∈ (cleanupLoop now m.idle_timeout m.heap m.timestamps).2
    · simp [h]
    · simpa [h] using hkeys k
  · intro k last hlast
    rw [popMany_ts] at hlast
    by_cases h : k ∈ (cleanupLoop now m.idle_timeout m.heap m.timestamps).2
    · rw [if_pos h] at hlast; exact Option.noConfusion hlast
    · rw [if_neg h] at hlast
      obtain ⟨d, hd, hle⟩ := hcov k last hlast
      rcases cleanupLoop_cover now m.idle_timeout m.heap m.timestamps k last hlast
          d hd hle with hin | ⟨d', hd', hle'⟩
      · exact absurd hin h
      · refine ⟨d', ?_, ?_⟩
        · rw [popMany_heap]; exact hd'
        · rw [popMany_timeout]; exact hle'

end TimeoutMap

/-!
## Further `TimeoutMap` facts used by the claim proofs
-/

namespace TimeoutMap

variable {V : Type}

theorem refresh_data (m : TimeoutMap V) (now : Nat) (k : String) :
    (m.refresh now k).data = m.data := by
  cases h : aget m.data k <;> simp [TimeoutMap.refresh, h]

theorem refresh_get (m : TimeoutMap V) (now : Nat) (k q : String) :
    (m.refresh now k).get q = m.get q := by
  show aget (m.refresh now k).data q = aget m.data q
  rw [refresh_data]

theorem pop_get_self (m : TimeoutMap V) (k : String) :
    ((m.pop k).1).get k = none := by
  show aget ((m.pop k).1).data k = none
  rw [pop_data, aget_aerase_self]

end TimeoutMap

/-!
## C5 — terminal status events clean up all three job maps
-/

/-- C5: for every status event whose resulting job state is terminal
(completed, failed, or interrupted), after the status callback fires the
entry for that `prompt_id` is absent from the `prompt_id → Job` map and the
`prompt_id → callback` map, and the entry for the job's `request_id` is
absent from the `request_id → prompt_id` map; the callback fired exactly
once. -/
theorem C5_terminal_event_cleanup (st : JobMaps) (now : Nat) (ev : StatusEvent)
    (pid : String) (hpid : ev.prompt_id = some pid) (hne : pid ≠ "")
    (wf : WorkflowTask) (hwf : st.prompt_to_job.get pid = some wf)
    (cb : Nat) (hcb : st.prompt_to_callback.get pid = some cb)
    (ns : JobStatus) (hns : statusFor ev.type = some ns)
    (hterm : ns.isTerminal = true) :
    (process_status_event st now ev).1.prompt_to_job.get pid = none ∧
    (process_status_event st now ev).1.prompt_to_callback.get pid = none ∧
    (process_status_event st now ev).1.request_to_prompt.get wf.request_id = none ∧
    (process_status_event st now ev).2.length = 1 := by
  have hj : (st.prompt_to_job.refresh now pid).get pid = some wf := by
    rw [TimeoutMap.refresh_get]; exact hwf
  simp only [process_status_event, hpid, if_neg hne, hj, hcb, hns, hterm, if_true]
  refine ⟨TimeoutMap.pop_get_self _ _, TimeoutMap.pop_get_self _ _, ?_, rfl⟩
  exact TimeoutMap.pop_get_self _ _

/-- C5 witness: the cleanup theorem applied to the concrete state and the
`execution_success` event. -/
theorem C5_terminal_event_cleanup_witness :
    (process_status_event jobMapsW 5 eventW).1.prompt_to_job.get "P" = none ∧
    (process_status_event jobMapsW 5 eventW).1.prompt_to_callback.get "P" = none ∧
    (process_status_event jobMapsW 5 eventW).1.request_to_prompt.get "R" = none ∧
    (process_status_event jobMapsW 5 eventW).2.length = 1 :=
  C5_terminal_event_cleanup jobMapsW 5 eventW "P" rfl (by decide) _ rfl 7 rfl
    .completed rfl rfl

/-!
## C6 — `pop` and the eviction callback
-/

/-- C6 counterexample: `"k"` is present in a map with an eviction callback
configured, yet `pop("k")` fires the callback zero times, not once —
`pop` guards the callback with Python truthiness of the value
(`if self._evict_callback and item:`), and the removed value `""` is
falsy. -/
theorem C6_counterexample :
    tmC6.hasEvict = true ∧ tmC6.get "k" = some "" ∧
    (tmC6.pop "k").2.2.length = 0 := by
  refine ⟨rfl, rfl, rfl⟩

/-- C6 (amended): for every key `k` present in a `TimeoutMap` with an
eviction callback configured, `pop(k)` removes `k` from both the value map
and the timestamp map so a subsequent `get(k)` returns `None`, and the
`on_evict` callback is invoked exactly once with `(k, v)` when the removed
value is truthy — and not at all when it is falsy. -/
theorem C6_pop_evicts_amended {V : Type} (m : TimeoutMap V) (k : String) (v : V)
    (hv : aget m.data k = some v) (hcb : m.hasEvict = true) :
    (m.pop k).1.get k = none ∧
    aget ((m.pop k).1).timestamps k = none ∧
    (m.pop k).2.1 = some v ∧
    (m.pop k).2.2 = (if m.truthy v then [(k, v)] else []) := by
  refine ⟨TimeoutMap.pop_get_self m k, ?_, ?_, ?_⟩
  · rw [TimeoutMap.pop_ts, aget_aerase_self]
  · simp [TimeoutMap.pop, hv]
  · simp [TimeoutMap.pop, hv, hcb]

/-- C6 witness: the amended theorem applied to a concrete map holding a
truthy value, whose eviction callback fires exactly once. -/
theorem C6_pop_evicts_amended_witness :
    (tmC6W.pop "k").1.get "k" = none ∧
    aget ((tmC6W.pop "k").1).timestamps "k" = none ∧
    (tmC6W.pop "k").2.1 = some "x" ∧
    (tmC6W.pop "k").2.2 = (if tmC6W.truthy "x" then [("k", "x")] else []) :=
  C6_pop_evicts_amended tmC6W "k" "x" rfl rfl

/-!
## C7 — the lazy-heap deadline invariant
-/

/-- C7: for every key `k` present in a `TimeoutMap`, there is at least one
heap entry `(d, k)` with `d` at least the recorded deadline
`timestamps[k] + idle_timeout` (together with agreement of the `data` and
`timestamps` key sets); this invariant is preserved by `set`, `refresh`,
`pop`, and `cleanup`. -/
theorem C7_heap_invariant_preserved {V : Type} (m : TimeoutMap V) (hm : m.Wf)
    (now : Nat) (k : String) (v : V) :
    (m.set now k v).Wf ∧ (m.refresh now k).Wf ∧ ((m.pop k).1).Wf ∧
    ((m.cleanup now).1).Wf :=
  ⟨TimeoutMap.set_Wf m hm now k v, TimeoutMap.refresh_Wf m hm now k,
   TimeoutMap.pop_Wf m hm k, TimeoutMap.cleanup_Wf m hm now⟩

/-!
## C8 — the dial retry loop of `connect_to_backend`
-/

theorem connectGo_congr (env env2 : Nat → AttemptOutcome) (r a : Nat)
    (h : ∀ i, a ≤ i → i < a + r → env i = env2 i) :
    connectGo env a r = connectGo env2 a r := by
  induction r generalizing a with
  | zero => rfl
  | succ r ih =>
    have ha : env a = env2 a := h a (le_refl a) (by omega)
    have htail : ∀ i, a + 1 ≤ i → i < (a + 1) + r → env i = env2 i :=
      fun i h1 h2 => h i (by omega) (by omega)
    cases henv : env2 a with
    | exn => simp [connectGo, ha, henv, ih (a + 1) htail]
    | handshake sid =>
      cases sid with
      | none => simp [connectGo, ha, henv, ih (a + 1) htail]
      | some s =>
        by_cases hs : s = "" <;> simp [connectGo, ha, henv, hs, ih (a + 1) htail]

theorem connectGo_none_iff (env : Nat → AttemptOutcome) (r a : Nat) :
    (connectGo env a r).1 = none ↔
      ∀ i, a ≤ i → i < a + r → attemptFails (env i) = true := by
  induction r generalizing a with
  | zero => simp [connectGo]; intro i h1 h2; omega
  | succ r ih =>
    cases henv : env a with
    | exn =>
      simp only [connectGo, henv]
      rw [ih (a + 1)]
      constructor
      · intro hall i h1 h2
        rcases Nat.eq_or_lt_of_le h1 with heq | hlt
        · rw [← heq, henv]; rfl
        · exact hall i hlt (by omega)
      · intro hall i h1 h2; exact hall i (by omega) (by omega)
    | handshake sid =>
      cases sid with
      | none =>
        simp only [connectGo, henv]
        rw [ih (a + 1)]
        constructor
        · intro hall i h1 h2
          rcases Nat.eq_or_lt_of_le h1 with heq | hlt
          · rw [← heq, henv]; rfl
          · exact hall i hlt (by omega)
        · intro hall i h1 h2; exact hall i (by omega) (by omega)
      | some s =>
        by_cases hs : s = ""
        · simp only [connectGo, henv, hs, if_true]
          rw [ih (a + 1)]
          constructor
          · intro hall i h1 h2
            rcases Nat.eq_or_lt_of_le h1 with heq | hlt
            · rw [← heq, henv, hs]; rfl
            · exact hall i hlt (by omega)
          · intro hall i h1 h2; exact hall i (by omega) (by omega)
        · simp only [connectGo, henv, hs, if_false]
          constructor
          · intro h; exact Option.noConfusion h
          · intro hall
            have := hall a (le_refl a) (by omega)
            rw [henv] at this
            simp [attemptFails, truthyStr, hs] at this

theorem connectGo_some (env : Nat → AttemptOutcome) (r a : Nat) (s : String)
    (h : (connectGo env a r).1 = some s) :
    ∃ i, a ≤ i ∧ i < a + r ∧ env i = .handshake (some s) ∧ s ≠ "" ∧
      ∀ j, a ≤ j → j < i → attemptFails (env j) = true := by
  induction r generalizing a with
  | zero => exact Option.noConfusion h
  | succ r ih =>
    cases henv : env a with
    | exn =>
      rw [show (connectGo env a (r + 1)).1 = (connectGo env (a + 1) r).1 by
        simp [connectGo, henv]] at h
      obtain ⟨i, h1, h2, h3, h4, h5⟩ := ih (a + 1) h
      refine ⟨i, by omega, by omega, h3, h4, ?_⟩
      intro j hj1 hj2
      rcases Nat.eq_or_lt_of_le hj1 with heq | hlt
      · rw [← heq, henv]; rfl
      · exact h5 j hlt hj2
    | handshake sid =>
      cases sid with
      | none =>
        rw [show (connectGo env a (r + 1)).1 = (connectGo env (a + 1) r).1 by
          simp [connectGo, henv]] at h
        obtain ⟨i, h1, h2, h3, h4, h5⟩ := ih (a + 1) h
        refine ⟨i, by omega, by omega, h3, h4, ?_⟩
        intro j hj1 hj2
        rcases Nat.eq_or_lt_of_le hj1 with heq | hlt
        · rw [← heq, henv]; rfl
        · exact h5 j hlt hj2
      | some s0 =>
        by_cases hs : s0 = ""
        · rw [show (connectGo env a (r + 1)).1 = (connectGo env (a + 1) r).1 by
            simp [connectGo, henv, hs]] at h
          obtain ⟨i, h1, h2, h3, h4, h5⟩ := ih (a + 1) h
          refine ⟨i, by omega, by omega, h3, h4, ?_⟩
          intro j hj1 hj2
          rcases Nat.eq_or_lt_of_le hj1 with heq | hlt
          · rw [← heq, henv]; simp [attemptFails, truthyStr, hs]
          · exact h5 j hlt hj2
        · rw [show (connectGo env a (r + 1)).1 = some s0 by
            simp [connectGo, henv, hs]] at h
          obtain rfl : s0 = s := Option.some.inj h
          exact ⟨a, le_refl a, by omega, henv, hs, fun j hj1 hj2 => by omega⟩

theorem firstSuccessIn_cons_fail (env : Nat → AttemptOutcome) (a r : Nat)
    (hf : attemptFails (env a) = true) :
    firstSuccessIn env a (r + 1) = firstSuccessIn env (a + 1) r := by
  simp [firstSuccessIn, List.range'_succ, List.filter_cons, hf]

theorem firstSuccessIn_mem (env : Nat → AttemptOutcome) (a r i : Nat)
    (h : firstSuccessIn env a r = some i) : a ≤ i ∧ i < a + r := by
  have hmem : i ∈ (List.range' a r).filter fun j => !(attemptFails (env j)) :=
    List.mem_of_mem_head? h
  have := List.mem_range'.mp (List.mem_filter.mp hmem).1
  omega

theorem execIn_cons (env : Nat → AttemptOutcome) (a r : Nat)
    (hf : attemptFails (env a) = true) :
    execIn env a (r + 1) = a :: execIn env (a + 1) r := by
  unfold execIn
  rw [firstSuccessIn_cons_fail env a r hf]
  cases hfs : firstSuccessIn env (a + 1) r with
  | none =>
    show List.range' a (r + 1) = a :: List.range' (a + 1) r
    rw [List.range'_succ]
  | some i =>
    have hge := (firstSuccessIn_mem env (a + 1) r i hfs).1
    show List.range' a (i - a) = a :: List.range' (a + 1) (i - (a + 1))
    rw [show i - a = (i - (a + 1)) + 1 by omega, List.range'_succ]

theorem connectGo_sleeps (env : Nat → AttemptOutcome) (r a : Nat) :
    (connectGo env a r).2 =
      ((execIn env a r).filter fun i => isExn (env i)).map
        fun i => RETRY_DELAY * i := by
  induction r generalizing a with
  | zero => simp [connectGo, execIn, firstSuccessIn]
  | succ r ih =>
    cases henv : env a with
    | exn =>
      have hf : attemptFails (env a) = true := by rw [henv]; rfl
      rw [execIn_cons env a r hf]
      have hx : isExn (env a) = true := by rw [henv]; rfl
      simp [connectGo, henv, List.filter_cons, hx, ih (a + 1), isExn]
    | handshake sid =>
      have hx : isExn (env a) = false := by rw [henv]; rfl
      cases sid with
      | none =>
        have hf : attemptFails (env a) = true := by rw [henv]; rfl
        rw [show (connectGo env a (r + 1)).2 = (connectGo env (a + 1) r).2 by
          simp [connectGo, henv]]
        rw [execIn_cons env a r hf]
        simp [List.filter_cons, hx, ih (a + 1)]
      | some s =>
        by_cases hs : s = ""
        · have hf : attemptFails (env a) = true := by
            rw [henv]; simp [attemptFails, truthyStr, hs]
          rw [show (connectGo env a (r + 1)).2 = (connectGo env (a + 1) r).2 by
            simp [connectGo, henv, hs]]
          rw [execIn_cons env a r hf]
          simp [List.filter_cons, hx, ih (a + 1)]
        · have hsucc : attemptFails (env a) = false := by
            rw [henv]; simp [attemptFails, truthyStr, hs]
          have hfs : firstSuccessIn env a (r + 1) = some a := by
            simp [firstSuccessIn, List.range'_succ, List.filter_cons, hsucc]
          rw [show (connectGo env a (r + 1)).2 = [] by simp [connectGo, henv, hs]]
          simp [execIn, hfs]

/-- C8 counterexample: the first attempt fails (falsy handshake `sid`) and
a second attempt follows, yet the loop performs no wait at all — the
claimed `RETRY_DELAY * attempt` wait between consecutive failed attempts
only happens on the exception path, not after a handshake without a
`sid`. -/
theorem C8_counterexample :
    attemptFails (envC8 1) = true ∧
    (connect_to_backend envC8).1 = some "S" ∧
    (connect_to_backend envC8).2 = [] := by
  refine ⟨rfl, rfl, rfl⟩

/-- C8 (amended): `connect_to_backend` makes at most `MAX_RETRIES = 5`
attempts (its outcome depends only on attempts 1–5); it raises the
backend-unavailable `ConnectionError` iff all 5 attempts fail; on success
it returns the `sid` of the first succeeding attempt's handshake; and its
waits are exactly `RETRY_DELAY * i` for each executed attempt `i` that
failed **with an exception** — an attempt whose handshake lacks a truthy
`sid` is retried immediately with no wait. -/
theorem C8_connect_retries_amended (env : Nat → AttemptOutcome) :
    (∀ env2 : Nat → AttemptOutcome,
      (∀ i, 1 ≤ i → i ≤ MAX_RETRIES → env i = env2 i) →
        connect_to_backend env = connect_to_backend env2) ∧
    ((connect_to_backend env).1 = none ↔
      ∀ i, 1 ≤ i → i ≤ MAX_RETRIES → attemptFails (env i) = true) ∧
    (∀ s, (connect_to_backend env).1 = some s →
      ∃ i, 1 ≤ i ∧ i ≤ MAX_RETRIES ∧ env i = .handshake (some s) ∧ s ≠ "" ∧
        ∀ j, 1 ≤ j → j < i → attemptFails (env j) = true) ∧
    (connect_to_backend env).2 =
      ((execIn env 1 MAX_RETRIES).filter fun i => isExn (env i)).map
        fun i => RETRY_DELAY * i := by
  unfold connect_to_backend
  refine ⟨?_, ?_, ?_, connectGo_sleeps env MAX_RETRIES 1⟩
  · intro env2 h
    show connectGo env 1 MAX_RETRIES = connectGo env2 1 MAX_RETRIES
    exact connectGo_congr env env2 MAX_RETRIES 1 fun i h1 h2 => h i h1 (by omega)
  · rw [connectGo_none_iff env MAX_RETRIES 1]
    constructor
    · intro hall i h1 h2; exact hall i h1 (by omega)
    · intro hall i h1 h2; exact hall i h1 (by omega)
  · intro s hs
    obtain ⟨i, h1, h2, h3, h4, h5⟩ := connectGo_some env MAX_RETRIES 1 s hs
    exact ⟨i, h1, by omega, h3, h4, h5⟩

/-- C8 witness: the amended theorem applied to an environment where every
attempt raises; the dial raises after 5 attempts and sleeps 2, 4, 6, 8,
10 seconds. -/
theorem C8_connect_retries_amended_witness :
    (connect_to_backend envC8W).1 = none ∧
    (connect_to_backend envC8W).2 =
      ((execIn envC8W 1 MAX_RETRIES).filter fun i => isExn (envC8W i)).map
        fun i => RETRY_DELAY * i :=
  ⟨((C8_connect_retries_amended envC8W).2.1).mpr fun _ _ _ => rfl,
   (C8_connect_retries_amended envC8W).2.2.2⟩

/-!
## C3 — backend errors in the `backend_to_client` pump
-/

/-- C3 counterexample: after a backend error followed by eleven failed
reconnect attempts — far beyond the five-attempt retry budget the
specification describes — the pump has sent the client nothing at all:
no `Lost connection to backend` frame and no close with code 1011 ever
happens, because the reconnect loop retries indefinitely. -/
theorem C3_counterexample :
    (backend_to_client pumpEnvCF 12).1 = [] ∧
    (backend_to_client pumpEnvCF 12).2 =
      [1, 2, 4, 8, 16, 32, 64, 128, 128, 128, 128] := by
  refine ⟨rfl, rfl⟩

theorem pumpGo_only_bytes (env : PumpEnv) (fuel : Nat) :
    ∀ mode b r c, ∀ a ∈ (pumpGo env fuel mode b r c).1, ∃ p, a = .sendBytes p := by
  induction fuel with
  | zero => intro mode b r c a ha; simp [pumpGo] at ha
  | succ fuel ih =>
    intro mode b r c a ha
    cases mode with
    | recvLoop =>
      cases henv : env.recv r with
      | bytesMsg p =>
        rw [show (pumpGo env (fuel + 1) .recvLoop b r c).1 =
            .sendBytes (p.drop 8) :: (pumpGo env fuel .recvLoop 1 (r + 1) c).1 by
          simp [pumpGo, henv]] at ha
        rcases List.mem_cons.mp ha with heq | hmem
        · exact ⟨p.drop 8, heq⟩
        · exact ih .recvLoop 1 (r + 1) c a hmem
      | textMsg s =>
        rw [show (pumpGo env (fuel + 1) .recvLoop b r c).1 =
            (pumpGo env fuel .recvLoop 1 (r + 1) c).1 by simp [pumpGo, henv]] at ha
        exact ih .recvLoop 1 (r + 1) c a ha
      | errRecv =>
        rw [show (pumpGo env (fuel + 1) .recvLoop b r c).1 =
            (pumpGo env fuel .reconnectLoop 1 (r + 1) c).1 by
          simp [pumpGo, henv]] at ha
        exact ih .reconnectLoop 1 (r + 1) c a ha
    | reconnectLoop =>
      cases henv : env.reconnect c with
      | ok =>
        rw [show (pumpGo env (fuel + 1) .reconnectLoop b r c).1 =
            (pumpGo env fuel .recvLoop 1 r (c + 1)).1 by simp [pumpGo, henv]] at ha
        exact ih .recvLoop 1 r (c + 1) a ha
      | fail =>
        rw [show (pumpGo env (fuel + 1) .reconnectLoop b r c).1 =
            (pumpGo env fuel .reconnectLoop (min (b * 2) 128) r (c + 1)).1 by
          simp [pumpGo, henv]] at ha
        exact ih .reconnectLoop (min (b * 2) 128) r (c + 1) a ha

theorem pumpGo_allfail (env : PumpEnv) (hrc : ∀ c, env.reconnect c = .fail)
    (fuel : Nat) : ∀ b r c,
    pumpGo env fuel .reconnectLoop b r c = ([], expBackoffSeq b fuel) := by
  induction fuel with
  | zero => intro b r c; rfl
  | succ fuel ih =>
    intro b r c
    simp [pumpGo, hrc c, ih (min (b * 2) 128) r (c + 1), expBackoffSeq]

theorem expBackoffSeq_eq (n : Nat) : ∀ b, 1 ≤ b → b ≤ 128 →
    expBackoffSeq b n = (List.range n).map fun k => min (b * 2 ^ k) 128 := by
  induction n with
  | zero => intro b h1 h2; rfl
  | succ n ih =>
    intro b h1 h2
    rw [expBackoffSeq, List.range_succ_eq_map, List.map_cons, List.map_map]
    have hhead : b = min (b * 2 ^ 0) 128 := by
      rw [pow_zero, mul_one, Nat.min_eq_left h2]
    have hb' : 1 ≤ min (b * 2) 128 := by omega
    have hb2 : min (b * 2) 128 ≤ 128 := by omega
    rw [ih (min (b * 2) 128) hb' hb2]
    refine congrArg₂ List.cons hhead ?_
    refine List.map_congr_left ?_
    intro k hk
    show min (min (b * 2) 128 * 2 ^ k) 128 = min (b * 2 ^ (k + 1)) 128
    have h2k : 1 ≤ 2 ^ k := Nat.one_le_two_pow
    by_cases hcap : b * 2 ≤ 128
    · rw [Nat.min_eq_left hcap, pow_succ]
      congr 1
      ring
    · have hmin : min (b * 2) 128 = 128 := Nat.min_eq_right (by omega)
      rw [hmin]
      have hl : (128 : Nat) ≤ 128 * 2 ^ k := Nat.le_mul_of_pos_right 128 (by omega)
      have hr : (128 : Nat) ≤ b * 2 ^ (k + 1) := by
        calc (128 : Nat) ≤ b * 2 := by omega
        _ ≤ b * 2 * 2 ^ k := Nat.le_mul_of_pos_right _ (by omega)
        _ = b * 2 ^ (k + 1) := by rw [pow_succ]; ring
      rw [Nat.min_eq_right hl, Nat.min_eq_right hr]

/-- C3 (amended): backend I/O errors in the `backend_to_client` pump are
handled locally with exponential backoff (delays 1, 2, 4, … capped at
128 s), but they *never* surface to the client: the reconnect retry loop
is unbounded, so no retry budget can be exhausted, and the pump never
sends any text frame (in particular no
`Lost connection to backend` frame) and never closes the client
WebSocket — the only client-visible actions are binary frames. -/
theorem C3_pump_errors_amended (env : PumpEnv) (fuel : Nat) :
    (∀ s, ClientAction.sendText s ∉ (backend_to_client env fuel).1) ∧
    (∀ code, ClientAction.close code ∉ (backend_to_client env fuel).1) ∧
    ((∀ c, env.reconnect c = .fail) → env.recv 0 = .errRecv →
      (backend_to_client env (fuel + 1)).2 = expBackoffSeq 1 fuel) ∧
    (∀ n, expBackoffSeq 1 n = (List.range n).map fun k => min (2 ^ k) 128) := by
  refine ⟨?_, ?_, ?_, ?_⟩
  · intro s hmem
    obtain ⟨p, hp⟩ := pumpGo_only_bytes env fuel .recvLoop 1 0 0 _ hmem
    exact ClientAction.noConfusion hp
  · intro code hmem
    obtain ⟨p, hp⟩ := pumpGo_only_bytes env fuel .recvLoop 1 0 0 _ hmem
    exact ClientAction.noConfusion hp
  · intro hrc hr0
    show (pumpGo env (fuel + 1) .recvLoop 1 0 0).2 = expBackoffSeq 1 fuel
    rw [show pumpGo env (fuel + 1) .recvLoop 1 0 0 =
        pumpGo env fuel .reconnectLoop 1 1 0 by simp [pumpGo, hr0]]
    rw [pumpGo_allfail env hrc fuel 1 1 0]
  · intro n
    rw [expBackoffSeq_eq n 1 (le_refl 1) (by omega)]
    exact List.map_congr_left fun k _ => by rw [one_mul]

/-- C3 witness: the amended theorem applied to the all-failure
environment; the pump's sleeps follow the exponential sequence and no
error frame was sent. -/
theorem C3_pump_errors_amended_witness :
    (∀ s, ClientAction.sendText s ∉ (backend_to_client pumpEnvCF 12).1) ∧
    (backend_to_client pumpEnvCF 12).2 = expBackoffSeq 1 11 :=
  ⟨(C3_pump_errors_amended pumpEnvCF 12).1,
   (C3_pump_errors_amended pumpEnvCF 11).2.2.1 (fun _ => rfl) rfl⟩

/-!
## C4 — the cid/sid cross-index bijection
-/

theorem evictClientMaps_Inv (st : ConnState) (h : st.Inv) (cid : String) :
    (evictClientMaps st cid).Inv := by
  obtain ⟨hbij, hne⟩ := h
  cases hc : aget st.cid_sid cid with
  | none => simpa [evictClientMaps, hc] using ⟨hbij, hne⟩
  | some sid =>
    rw [show evictClientMaps st cid =
        { cid_sid := aerase st.cid_sid cid, sid_cid := aerase st.sid_cid sid } by
      simp [evictClientMaps, hc]]
    constructor
    · intro c s
      show aget (aerase st.cid_sid cid) c = some s ↔
        aget (aerase st.sid_cid sid) s = some c
      rw [aget_aerase, aget_aerase]
      by_cases h1 : c = cid
      · subst h1
        simp only [if_pos rfl]
        constructor
        · intro hcontra; exact Option.noConfusion hcontra
        · intro hs
          by_cases h2 : s = sid
          · rw [if_pos h2] at hs; exact Option.noConfusion hs
          · rw [if_neg h2] at hs
            have := (hbij c s).mpr hs
            rw [hc] at this
            exact absurd (Option.some.inj this).symm h2
      · rw [if_neg h1]
        by_cases h2 : s = sid
        · subst h2
          simp only [if_pos rfl]
          constructor
          · intro hcs
            have := (hbij cid s).mp hc
            have h3 := (hbij c s).mp hcs
            rw [this] at h3
            exact absurd (Option.some.inj h3) fun hh => h1 hh.symm
          · intro hcontra; exact Option.noConfusion hcontra
        · rw [if_neg h2]; exact hbij c s
    · intro c s hcs
      show s ≠ ""
      replace hcs : aget (aerase st.cid_sid cid) c = some s := hcs
      rw [aget_aerase] at hcs
      by_cases h1 : c = cid
      · rw [if_pos h1] at hcs; exact Option.noConfusion hcs
      · rw [if_neg h1] at hcs; exact hne c s hcs

theorem evictServerMaps_Inv (st : ConnState) (h : st.Inv) (sid : String) :
    (evictServerMaps st sid).Inv := by
  obtain ⟨hbij, hne⟩ := h
  cases hc : aget st.sid_cid sid with
  | none => simpa [evictServerMaps, hc] using ⟨hbij, hne⟩
  | some cid =>
    have hcid : aget st.cid_sid cid = some sid := (hbij cid sid).mpr hc
    rw [show evictServerMaps st sid =
        { cid_sid := aerase st.cid_sid cid, sid_cid := aerase st.sid_cid sid } by
      simp [evictServerMaps, hc]]
    constructor
    · intro c s
      show aget (aerase st.cid_sid cid) c = some s ↔
        aget (aerase st.sid_cid sid) s = some c
      rw [aget_aerase, aget_aerase]
      by_cases h1 : c = cid
      · subst h1
        simp only [if_pos rfl]
        constructor
        · intro hcontra; exact Option.noConfusion hcontra
        · intro hs
          by_cases h2 : s = sid
          · rw [if_pos h2] at hs; exact Option.noConfusion hs
          · rw [if_neg h2] at hs
            have := (hbij c s).mpr hs
            rw [hcid] at this
            exact absurd (Option.some.inj this).symm h2
      · rw [if_neg h1]
        by_cases h2 : s = sid
        · subst h2
          simp only [if_pos rfl]
          constructor
          · intro hcs
            have h3 := (hbij c s).mp hcs
            rw [hc] at h3
            exact absurd (Option.some.inj h3) fun hh => h1 hh.symm
          · intro hcontra; exact Option.noConfusion hcontra
        · rw [if_neg h2]; exact hbij c s
    · intro c s hcs
      show s ≠ ""
      replace hcs : aget (aerase st.cid_sid cid) c = some s := hcs
      rw [aget_aerase] at hcs
      by_cases h1 : c = cid
      · rw [if_pos h1] at hcs; exact Option.noConfusion hcs
      · rw [if_neg h1] at hcs; exact hne c s hcs

theorem accept_ok_Inv (st st' : ConnState) (hst : st.Inv) (cid freshSid : String)
    (hfresh : aget st.sid_cid freshSid = none) (hns : freshSid ≠ "")
    (h : accept_client_connection st cid freshSid = .ok st') : st'.Inv := by
  obtain ⟨hbij, hne⟩ := hst
  have hnone : aget st.cid_sid cid = none := by
    cases hc : aget st.cid_sid cid with
    | none => rfl
    | some sid0 =>
      exfalso
      have hs0 : sid0 ≠ "" := hne cid sid0 hc
      rw [show accept_client_connection st cid freshSid = .typeErr st by
        simp [accept_client_connection, hc, hs0]] at h
      exact AcceptResult.noConfusion h
  have hst' : st' = { cid_sid := aset st.cid_sid cid freshSid,
                      sid_cid := aset st.sid_cid freshSid cid } := by
    rw [show accept_client_connection st cid freshSid =
        .ok { cid_sid := aset st.cid_sid cid freshSid,
              sid_cid := aset st.sid_cid freshSid cid } by
      simp [accept_client_connection, hnone]] at h
    exact (AcceptResult.ok.inj h).symm
  subst hst'
  constructor
  · intro c s
    show aget (aset st.cid_sid cid freshSid) c = some s ↔
      aget (aset st.sid_cid freshSid cid) s = some c
    rw [aget_aset, aget_aset]
    by_cases h1 : c = cid
    · subst h1
      rw [if_pos rfl]
      by_cases h2 : s = freshSid
      · subst h2; rw [if_pos rfl]; simp
      · rw [if_neg h2]
        constructor
        · intro hcontra
          exact absurd (Option.some.inj hcontra) fun hh => h2 hh.symm
        · intro hs
          have := (hbij c s).mpr hs
          rw [hnone] at this
          exact Option.noConfusion this
    · rw [if_neg h1]
      by_cases h2 : s = freshSid
      · subst h2
        rw [if_pos rfl]
        constructor
        · intro hcs
          have := (hbij c s).mp hcs
          rw [hfresh] at this
          exact Option.noConfusion this
        · intro hcontra
          exact absurd (Option.some.inj hcontra) fun hh => h1 hh.symm
      · rw [if_neg h2]; exact hbij c s
  · intro c s hcs
    show s ≠ ""
    have : aget (aset st.cid_sid cid freshSid) c = some s := hcs
    rw [aget_aset] at this
    by_cases h1 : c = cid
    · rw [if_pos h1] at this
      rw [← Option.some.inj this]; exact hns
    · rw [if_neg h1] at this; exact hne c s this

/-- C4: the two index maps `_cid_sid_map` / `_sid_cid_map` form a bijection
on live pairs — `cid_sid[c] = s` iff `sid_cid[s] = c`, so no cid or sid
appears in more than one pair — at every point between operations: the
invariant holds of the initial (empty) state and is preserved by
`accept_client_connection` (both its normal path and the `TypeError` path
of a resumed cid), by both eviction callbacks, and hence by `disconnect`,
which touches the index maps only through those callbacks. -/
theorem C4_index_maps_bijection :
    ConnState.Inv { cid_sid := [], sid_cid := [] } ∧
    ∀ st st' : ConnState, st.Inv → ConnStep st st' → st'.Inv := by
  constructor
  · constructor
    · intro c s
      show aget [] c = some s ↔ aget [] s = some c
      simp [aget]
    · intro c s h
      simp [aget] at h
  · intro st st' hst hstep
    cases hstep with
    | accept cid freshSid hfresh hne h =>
      exact accept_ok_Inv st st' hst cid freshSid hfresh hne h
    | acceptRaise cid freshSid h =>
      have : st' = st := by
        cases hc : aget st.cid_sid cid with
        | none =>
          rw [show accept_client_connection st cid freshSid =
              .ok { cid_sid := aset st.cid_sid cid freshSid,
                    sid_cid := aset st.sid_cid freshSid cid } by
            simp [accept_client_connection, hc]] at h
          exact AcceptResult.noConfusion h
        | some sid0 =>
          by_cases hs : sid0 = ""
          · rw [show accept_client_connection st cid freshSid =
                .ok { cid_sid := aset st.cid_sid cid freshSid,
                      sid_cid := aset st.sid_cid freshSid cid } by
              simp [accept_client_connection, hc, hs]] at h
            exact AcceptResult.noConfusion h
          · rw [show accept_client_connection st cid freshSid = .typeErr st by
              simp [accept_client_connection, hc, hs]] at h
            exact (AcceptResult.typeErr.inj h).symm
      rw [this]; exact hst
    | evictClient cid => exact evictClientMaps_Inv st hst cid
    | evictServer sid => exact evictServerMaps_Inv st hst sid

theorem connStateW_Inv : connStateW.Inv := by
  constructor
  · intro c s
    show aget [("c", "s")] c = some s ↔ aget [("s", "c")] s = some c
    by_cases h1 : "c" = c <;> by_cases h2 : "s" = s <;> simp [aget, h1, h2]
  · intro c s h
    replace h : aget [("c", "s")] c = some s := h
    by_cases h1 : "c" = c
    · simp [aget, h1] at h
      rw [← h]; decide
    · simp [aget, h1] at h

/-- C4 witness: the preservation theorem applied to an eviction of the
live pair in the concrete state, and to the empty initial state. -/
theorem C4_index_maps_bijection_witness :
    (evictClientMaps connStateW "c").Inv ∧
    ConnState.Inv { cid_sid := [], sid_cid := [] } :=
  ⟨C4_index_maps_bijection.2 connStateW (evictClientMaps connStateW "c")
    connStateW_Inv (ConnStep.evictClient "c"),
   C4_index_maps_bijection.1⟩

/-!
## C10 — empty `outputs` and the unguarded `descriptor.outputs[0]`
-/

set_option maxRecDepth 8192 in
/-- C10: if `run_workflow` is called with a descriptor whose `outputs` list
is empty, the unguarded index `descriptor.outputs[0]` raises an unhandled
`IndexError` before any request is posted to the engine and before any job
is registered, so `queue_workflow` propagates the exception (an internal
error, not a `404` domain error) and no job is created; yet the listing
operation admits such workflows, since it only requires at least one
external input node. -/
theorem C10_empty_outputs_index_error (sid request_id : String)
    (d : WorkflowDescriptor) (hout : d.outputs = [])
    (cb : Nat) (env : EngineEnv) (now : Nat) (jm : JobMaps)
    (cache : AList WorkflowDescriptor) (wid : String)
    (userInputs : List WorkflowInput) :
    (run_workflow sid request_id d cb env now jm).result = .error .indexError ∧
    (run_workflow sid request_id d cb env now jm).posted = false ∧
    (run_workflow sid request_id d cb env now jm).maps = jm ∧
    (aget cache wid = some d →
      (queue_workflow cache wid userInputs (some sid) request_id cb env now
        jm).result = .error (.runErr .indexError)) ∧
    get_workflows [("wf", .ok wfC10)] = .ok [("wf", ())] := by
  have hrw : rewriteDescriptor sid request_id d = .error .indexError := by
    rw [rewriteDescriptor, hout]
  have hrun : run_workflow sid request_id d cb env now jm =
      { result := .error .indexError, posted := false, maps := jm } := by
    rw [run_workflow, hrw]
  refine ⟨by rw [hrun], by rw [hrun], by rw [hrun], ?_, rfl⟩
  intro hcache
  have hrw1 : rewriteDescriptor sid request_id { d with inputs := userInputs } =
      .error .indexError := by
    rw [rewriteDescriptor]
    show (match d.outputs with
      | [] => Except.error RunErr.indexError
      | o0 :: rest => _) = Except.error RunErr.indexError
    rw [hout]
  have hrun1 : run_workflow sid request_id { d with inputs := userInputs } cb env
      now jm = { result := .error .indexError, posted := false, maps := jm } := by
    rw [run_workflow, hrw1]
  simp [queue_workflow, hcache, hrun1]

/-- C10 witness: the theorem applied to the concrete listed-but-outputless
workflow descriptor. -/
theorem C10_empty_outputs_index_error_witness :
    (run_workflow "S" "R" dC10 7 { postStatus := 200, promptId := some "P" } 0
      jobMapsEmpty).result = .error .indexError ∧
    (run_workflow "S" "R" dC10 7 { postStatus := 200, promptId := some "P" } 0
      jobMapsEmpty).posted = false ∧
    (run_workflow "S" "R" dC10 7 { postStatus := 200, promptId := some "P" } 0
      jobMapsEmpty).maps = jobMapsEmpty ∧
    (aget [("wf", dC10)] "wf" = some dC10 →
      (queue_workflow [("wf", dC10)] "wf" [] (some "S") "R" 7
        { postStatus := 200, promptId := some "P" } 0 jobMapsEmpty).result =
        .error (.runErr .indexError)) ∧
    get_workflows [("wf", .ok wfC10)] = .ok [("wf", ())] :=
  C10_empty_outputs_index_error "S" "R" dC10 rfl 7
    { postStatus := 200, promptId := some "P" } 0 jobMapsEmpty
    [("wf", dC10)] "wf" []

/-!
## C1 / C2 — the per-request descriptor rewrite
-/

theorem nodeInputGet_congr (n1 n2 : AList JNode) (nid key : String)
    (h : aget n1 nid = aget n2 nid) :
    nodeInputGet n1 nid key = nodeInputGet n2 nid key := by
  unfold nodeInputGet
  rw [h]

theorem setNodeInputKey_eq_ok (d : WorkflowDescriptor) (nid key : String)
    (v : JVal) (node : JNode) (inp : AList JVal)
    (hn : aget d.nodes nid = some node) (hi : node.inputs = some inp) :
    setNodeInputKey d nid key v =
      .ok { d with
            nodes := aset d.nodes nid { node with inputs := some (aset inp key v) },
            workflow_json :=
              aset d.workflow_json nid
                { node with inputs := some (aset inp key v) } } := by
  simp [setNodeInputKey, hn, hi]

theorem setNodeInputKey_ok (d : WorkflowDescriptor) (nid key : String) (v : JVal)
    (d' : WorkflowDescriptor) (h : setNodeInputKey d nid key v = .ok d') :
    ∃ node inp, aget d.nodes nid = some node ∧ node.inputs = some inp ∧
      d' = { d with
              nodes := aset d.nodes nid { node with inputs := some (aset inp key v) },
              workflow_json :=
                aset d.workflow_json nid
                  { node with inputs := some (aset inp key v) } } := by
  cases hn : aget d.nodes nid with
  | none => simp [setNodeInputKey, hn] at h
  | some node =>
    cases hi : node.inputs with
    | none => simp [setNodeInputKey, hn, hi] at h
    | some inp =>
      rw [setNodeInputKey_eq_ok d nid key v node inp hn hi] at h
      exact ⟨node, inp, rfl, hi, (Except.ok.inj h).symm⟩

theorem setNodeInputKey_fields (d : WorkflowDescriptor) (nid key : String)
    (v : JVal) (d' : WorkflowDescriptor) (h : setNodeInputKey d nid key v = .ok d') :
    d'.inputs = d.inputs ∧ d'.outputs = d.outputs := by
  obtain ⟨node, inp, hn, hi, rfl⟩ := setNodeInputKey_ok d nid key v d' h
  exact ⟨rfl, rfl⟩

theorem setNodeInputKey_get_self (d : WorkflowDescriptor) (nid key : String)
    (v : JVal) (d' : WorkflowDescriptor) (h : setNodeInputKey d nid key v = .ok d') :
    nodeInputGet d'.nodes nid key = some v := by
  obtain ⟨node, inp, hn, hi, rfl⟩ := setNodeInputKey_ok d nid key v d' h
  show nodeInputGet (aset d.nodes nid { node with inputs := some (aset inp key v) })
    nid key = some v
  simp [nodeInputGet, aget_aset_self]

theorem setNodeInputKey_nodes_ne (d : WorkflowDescriptor) (nid key : String)
    (v : JVal) (d' : WorkflowDescriptor) (h : setNodeInputKey d nid key v = .ok d')
    (nid' : String) (hne : nid' ≠ nid) :
    aget d'.nodes nid' = aget d.nodes nid' := by
  obtain ⟨node, inp, hn, hi, rfl⟩ := setNodeInputKey_ok d nid key v d' h
  exact aget_aset_ne _ _ _ _ hne

theorem setNodeInputKey_key_pres (d : WorkflowDescriptor) (nid key : String)
    (v : JVal) (d' : WorkflowDescriptor) (h : setNodeInputKey d nid key v = .ok d')
    (nid' key' : String) (hkey : key' ≠ key) :
    nodeInputGet d'.nodes nid' key' = nodeInputGet d.nodes nid' key' := by
  obtain ⟨node, inp, hn, hi, rfl⟩ := setNodeInputKey_ok d nid key v d' h
  by_cases hnid : nid' = nid
  · subst hnid
    show nodeInputGet (aset d.nodes nid' { node with inputs := some (aset inp key v) })
      nid' key' = nodeInputGet d.nodes nid' key'
    simp only [nodeInputGet, aget_aset_self, hn, hi]
    exact aget_aset_ne inp key key' v hkey
  · exact nodeInputGet_congr _ _ _ _ (aget_aset_ne _ _ _ _ hnid)

theorem applyInputs_cons (d : WorkflowDescriptor) (i : WorkflowInput)
    (rest : List WorkflowInput) (d1 : WorkflowDescriptor)
    (hs : setNodeInputKey d i.node_id "input_id" i.value = .ok d1) :
    applyInputs d (i :: rest) = applyInputs d1 rest := by
  simp [applyInputs, hs]

theorem applyInputs_fields (is : List WorkflowInput) :
    ∀ d d', applyInputs d is = .ok d' →
      d'.inputs = d.inputs ∧ d'.outputs = d.outputs := by
  induction is with
  | nil => intro d d' h; cases Except.ok.inj h; exact ⟨rfl, rfl⟩
  | cons i rest ih =>
    intro d d' h
    cases hs : setNodeInputKey d i.node_id "input_id" i.value with
    | error e => simp [applyInputs, hs] at h
    | ok d1 =>
      rw [applyInputs_cons d i rest d1 hs] at h
      obtain ⟨h1, h2⟩ := ih d1 d' h
      obtain ⟨h3, h4⟩ := setNodeInputKey_fields d i.node_id "input_id" i.value d1 hs
      exact ⟨h1.trans h3, h2.trans h4⟩

theorem applyInputs_nodes_not_mem (is : List WorkflowInput) :
    ∀ d d', applyInputs d is = .ok d' → ∀ nid, (∀ i ∈ is, i.node_id ≠ nid) →
      aget d'.nodes nid = aget d.nodes nid := by
  induction is with
  | nil => intro d d' h nid _; cases Except.ok.inj h; rfl
  | cons i rest ih =>
    intro d d' h nid hni
    cases hs : setNodeInputKey d i.node_id "input_id" i.value with
    | error e => simp [applyInputs, hs] at h
    | ok d1 =>
      rw [applyInputs_cons d i rest d1 hs] at h
      have h1 := ih d1 d' h nid fun j hj => hni j (List.mem_cons_of_mem i hj)
      have h2 := setNodeInputKey_nodes_ne d i.node_id "input_id" i.value d1 hs nid
        fun hh => hni i (List.mem_cons_self i rest) hh.symm
      exact h1.trans h2

theorem applyInputs_writes (is : List WorkflowInput)
    (hnd : (is.map WorkflowInput.node_id).Nodup) :
    ∀ d d', applyInputs d is = .ok d' →
      ∀ i ∈ is, nodeInputGet d'.nodes i.node_id "input_id" = some i.value := by
  induction is with
  | nil => intro d d' _ i hi; simp at hi
  | cons i0 rest ih =>
    intro d d' h i hi
    cases hs : setNodeInputKey d i0.node_id "input_id" i0.value with
    | error e => simp [applyInputs, hs] at h
    | ok d1 =>
      rw [applyInputs_cons d i0 rest d1 hs] at h
      rw [List.map_cons, List.nodup_cons] at hnd
      rcases List.mem_cons.mp hi with heq | hmem
      · subst heq
        have hrest : aget d'.nodes i.node_id = aget d1.nodes i.node_id :=
          applyInputs_nodes_not_mem rest d1 d' h i.node_id
            fun j hj hh => hnd.1 (hh ▸ List.mem_map_of_mem WorkflowInput.node_id hj)
        rw [nodeInputGet_congr _ _ _ _ hrest]
        exact setNodeInputKey_get_self d i.node_id "input_id" i.value d1 hs
      · exact ih hnd.2 d1 d' h i hmem

theorem applyOutputs_cons (d : WorkflowDescriptor) (o : WorkflowWebsocketImageOutput)
    (rest : List WorkflowWebsocketImageOutput) (d1 d2 : WorkflowDescriptor)
    (hs1 : setNodeInputKey d o.node_id "output_id" (.str o.output_id) = .ok d1)
    (hs2 : setNodeInputKey d1 o.node_id "client_id" (.str o.connection_id) = .ok d2) :
    applyOutputs d (o :: rest) = applyOutputs d2 rest := by
  simp [applyOutputs, hs1, hs2]

theorem applyOutputs_cons_split (d : WorkflowDescriptor)
    (o : WorkflowWebsocketImageOutput) (rest : List WorkflowWebsocketImageOutput)
    (d' : WorkflowDescriptor) (h : applyOutputs d (o :: rest) = .ok d') :
    ∃ d1 d2, setNodeInputKey d o.node_id "output_id" (.str o.output_id) = .ok d1 ∧
      setNodeInputKey d1 o.node_id "client_id" (.str o.connection_id) = .ok d2 ∧
      applyOutputs d2 rest = .ok d' := by
  cases hs1 : setNodeInputKey d o.node_id "output_id" (.str o.output_id) with
  | error e => simp [applyOutputs, hs1] at h
  | ok d1 =>
    cases hs2 : setNodeInputKey d1 o.node_id "client_id" (.str o.connection_id) with
    | error e => simp [applyOutputs, hs1, hs2] at h
    | ok d2 =>
      rw [applyOutputs_cons d o rest d1 d2 hs1 hs2] at h
      exact ⟨d1, d2, rfl, hs2, h⟩

theorem applyOutputs_fields (os : List WorkflowWebsocketImageOutput) :
    ∀ d d', applyOutputs d os = .ok d' →
      d'.inputs = d.inputs ∧ d'.outputs = d.outputs := by
  induction os with
  | nil => intro d d' h; cases Except.ok.inj h; exact ⟨rfl, rfl⟩
  | cons o rest ih =>
    intro d d' h
    obtain ⟨d1, d2, hs1, hs2, h⟩ := applyOutputs_cons_split d o rest d' h
    obtain ⟨h1, h2⟩ := ih d2 d' h
    obtain ⟨h3, h4⟩ := setNodeInputKey_fields d1 _ _ _ d2 hs2
    obtain ⟨h5, h6⟩ := setNodeInputKey_fields d _ _ _ d1 hs1
    exact ⟨(h1.trans h3).trans h5, (h2.trans h4).trans h6⟩

theorem applyOutputs_nodes_not_mem (os : List WorkflowWebsocketImageOutput) :
    ∀ d d', applyOutputs d os = .ok d' →
      ∀ nid, (∀ o ∈ os, o.node_id ≠ nid) → aget d'.nodes nid = aget d.nodes nid := by
  induction os with
  | nil => intro d d' h nid _; cases Except.ok.inj h; rfl
  | cons o rest ih =>
    intro d d' h nid hno
    obtain ⟨d1, d2, hs1, hs2, h⟩ := applyOutputs_cons_split d o rest d' h
    have hne : o.node_id ≠ nid := hno o (List.mem_cons_self o rest)
    have h1 := ih d2 d' h nid fun j hj => hno j (List.mem_cons_of_mem o hj)
    have h2 := setNodeInputKey_nodes_ne d1 _ _ _ d2 hs2 nid fun hh => hne hh.symm
    have h3 := setNodeInputKey_nodes_ne d _ _ _ d1 hs1 nid fun hh => hne hh.symm
    exact (h1.trans h2).trans h3

theorem applyOutputs_key_pres (os : List WorkflowWebsocketImageOutput) :
    ∀ d d', applyOutputs d os = .ok d' →
      ∀ nid key, key ≠ "output_id" → key ≠ "client_id" →
        nodeInputGet d'.nodes nid key = nodeInputGet d.nodes nid key := by
  induction os with
  | nil => intro d d' h nid key _ _; cases Except.ok.inj h; rfl
  | cons o rest ih =>
    intro d d' h nid key hk1 hk2
    obtain ⟨d1, d2, hs1, hs2, h⟩ := applyOutputs_cons_split d o rest d' h
    have h1 := ih d2 d' h nid key hk1 hk2
    have h2 := setNodeInputKey_key_pres d1 _ _ _ d2 hs2 nid key hk2
    have h3 := setNodeInputKey_key_pres d _ _ _ d1 hs1 nid key hk1
    exact (h1.trans h2).trans h3

theorem applyOutputs_writes (os : List WorkflowWebsocketImageOutput)
    (hnd : (os.map WorkflowWebsocketImageOutput.node_id).Nodup) :
    ∀ d d', applyOutputs d os = .ok d' →
      ∀ o ∈ os,
        nodeInputGet d'.nodes o.node_id "output_id" = some (.str o.output_id) ∧
        nodeInputGet d'.nodes o.node_id "client_id" = some (.str o.connection_id) := by
  induction os with
  | nil => intro d d' _ o ho; simp at ho
  | cons o0 rest ih =>
    intro d d' h o ho
    obtain ⟨d1, d2, hs1, hs2, htail⟩ := applyOutputs_cons_split d o0 rest d' h
    rw [List.map_cons, List.nodup_cons] at hnd
    rcases List.mem_cons.mp ho with heq | hmem
    · subst heq
      have hrest : aget d'.nodes o.node_id = aget d2.nodes o.node_id :=
        applyOutputs_nodes_not_mem rest d2 d' htail o.node_id
          fun j hj hh =>
            hnd.1 (hh ▸ List.mem_map_of_mem WorkflowWebsocketImageOutput.node_id hj)
      constructor
      · rw [nodeInputGet_congr _ _ _ _ hrest,
          setNodeInputKey_key_pres d1 _ _ _ d2 hs2 o.node_id "output_id" (by decide)]
        exact setNodeInputKey_get_self d o.node_id "output_id" _ d1 hs1
      · rw [nodeInputGet_congr _ _ _ _ hrest]
        exact setNodeInputKey_get_self d1 o.node_id "client_id" _ d2 hs2
    · exact ih hnd.2 d2 d' htail o hmem

theorem rewriteDescriptor_eq (sid rid : String) (d : WorkflowDescriptor)
    (o0 : WorkflowWebsocketImageOutput) (rest : List WorkflowWebsocketImageOutput)
    (hout : d.outputs = o0 :: rest) :
    rewriteDescriptor sid rid d =
      match applyInputs
          { d with outputs :=
              { o0 with connection_id := sid, output_id := rid } :: rest }
          d.inputs with
      | .error e => .error e
      | .ok d2 => applyOutputs d2 d2.outputs := by
  simp [rewriteDescriptor, hout]

theorem rewriteDescriptor_split (sid rid : String) (d d' : WorkflowDescriptor)
    (o0 : WorkflowWebsocketImageOutput) (rest : List WorkflowWebsocketImageOutput)
    (hout : d.outputs = o0 :: rest)
    (h : rewriteDescriptor sid rid d = .ok d') :
    ∃ d2, applyInputs
        { d with outputs := { o0 with connection_id := sid, output_id := rid } :: rest }
        d.inputs = .ok d2 ∧
      applyOutputs d2 ({ o0 with connection_id := sid, output_id := rid } :: rest)
        = .ok d' := by
  rw [rewriteDescriptor_eq sid rid d o0 rest hout] at h
  cases ha : applyInputs
      { d with outputs := { o0 with connection_id := sid, output_id := rid } :: rest }
      d.inputs with
  | error e => rw [ha] at h; exact Except.noConfusion h
  | ok d2 =>
    rw [ha] at h
    refine ⟨d2, rfl, ?_⟩
    have hd2out : d2.outputs =
        { o0 with connection_id := sid, output_id := rid } :: rest :=
      (applyInputs_fields d.inputs _ d2 ha).2
    rw [← hd2out]
    exact h

theorem rewriteDescriptor_inputs (sid rid : String) (d d' : WorkflowDescriptor)
    (h : rewriteDescriptor sid rid d = .ok d') : d'.inputs = d.inputs := by
  cases hout : d.outputs with
  | nil => rw [rewriteDescriptor, hout] at h; exact Except.noConfusion h
  | cons o0 rest =>
    obtain ⟨d2, ha, hb⟩ := rewriteDescriptor_split sid rid d d' o0 rest hout h
    rw [(applyOutputs_fields _ d2 d' hb).1, (applyInputs_fields d.inputs _ d2 ha).1]

/-- C1 counterexample: submitting `dC1` (two websocket image output nodes)
with `request_id = "R"` and `sid = "S"` leaves the second output node's
inputs mapping with `output_id = ""` and `client_id = ""` rather than the
request id and session id — only `outputs[0]` is assigned the per-request
values; the loop then writes every output entry's *stored* fields into its
node, and entries beyond the first still hold the empty strings from the
analysis. -/
theorem C1_counterexample :
    ((rewriteDescriptor "S" "R" dC1).map
      fun d => nodeInputGet d.nodes "n2" "output_id") = .ok (some (.str "")) ∧
    ((rewriteDescriptor "S" "R" dC1).map
      fun d => nodeInputGet d.nodes "n2" "client_id") = .ok (some (.str "")) ∧
    ((rewriteDescriptor "S" "R" dC1).map
      fun d => nodeInputGet d.nodes "n1" "output_id") = .ok (some (.str "R")) ∧
    JVal.str "" ≠ JVal.str "R" := by
  refine ⟨rfl, rfl, rfl, ?_⟩
  intro hh
  exact absurd (JVal.str.inj hh) (by decide)

/-- C1 (amended): after the rewrite step of `run_workflow` with session id
`sid` and request id `request_id`, the *first* output node's inputs mapping
has `output_id = request_id` and `client_id = sid`; every *other* output
node's inputs mapping receives the values stored in its cached output
entry (`connection_id` / `output_id`, empty strings as produced by the
analysis); and every declared input node has `inputs.input_id` set to the
caller-supplied value.  (Node ids are assumed distinct within the inputs
list and within the outputs list, as they are in a workflow dictionary.) -/
theorem C1_output_rewrite_amended (sid rid : String) (d d' : WorkflowDescriptor)
    (h : rewriteDescriptor sid rid d = .ok d')
    (o0 : WorkflowWebsocketImageOutput) (rest : List WorkflowWebsocketImageOutput)
    (hout : d.outputs = o0 :: rest)
    (hndO : ((o0 :: rest).map WorkflowWebsocketImageOutput.node_id).Nodup)
    (hndI : (d.inputs.map WorkflowInput.node_id).Nodup) :
    d'.outputs = { o0 with connection_id := sid, output_id := rid } :: rest ∧
    d'.inputs = d.inputs ∧
    nodeInputGet d'.nodes o0.node_id "output_id" = some (.str rid) ∧
    nodeInputGet d'.nodes o0.node_id "client_id" = some (.str sid) ∧
    (∀ o ∈ rest,
      nodeInputGet d'.nodes o.node_id "output_id" = some (.str o.output_id) ∧
      nodeInputGet d'.nodes o.node_id "client_id" = some (.str o.connection_id)) ∧
    (∀ i ∈ d.inputs, nodeInputGet d'.nodes i.node_id "input_id" = some i.value) := by
  obtain ⟨d2, ha, hb⟩ := rewriteDescriptor_split sid rid d d' o0 rest hout h
  have hndO' : (({ o0 with connection_id := sid, output_id := rid } :: rest).map
      WorkflowWebsocketImageOutput.node_id).Nodup := hndO
  have hwrites := applyOutputs_writes _ hndO' d2 d' hb
  refine ⟨?_, ?_, ?_, ?_, ?_, ?_⟩
  · rw [(applyOutputs_fields _ d2 d' hb).2, (applyInputs_fields d.inputs _ d2 ha).2]
  · exact rewriteDescriptor_inputs sid rid d d' h
  · exact (hwrites _ (List.mem_cons_self _ _)).1
  · exact (hwrites _ (List.mem_cons_self _ _)).2
  · intro o ho
    exact hwrites o (List.mem_cons_of_mem _ ho)
  · intro i hi
    rw [applyOutputs_key_pres _ d2 d' hb i.node_id "input_id" (by decide) (by decide)]
    exact applyInputs_writes d.inputs hndI _ d2 ha i hi

/-- C1 witness: the amended theorem applied to the concrete two-output
descriptor. -/
theorem C1_output_rewrite_amended_witness :
    dC1done.outputs =
      { node_id := "n1", node_type := "ComfyUIDeployWebsocketImageOutput",
        connection_id := "S", output_id := "R" } ::
      [{ node_id := "n2", node_type := "ComfyUIDeployWebsocketImageOutput",
         connection_id := "", output_id := "" }] ∧
    dC1done.inputs = dC1.inputs ∧
    nodeInputGet dC1done.nodes "n1" "output_id" = some (.str "R") ∧
    nodeInputGet dC1done.nodes "n1" "client_id" = some (.str "S") ∧
    (∀ o ∈ [({ node_id := "n2",
               node_type := "ComfyUIDeployWebsocketImageOutput",
               connection_id := "", output_id := "" } :
              WorkflowWebsocketImageOutput)],
      nodeInputGet dC1done.nodes o.node_id "output_id" = some (.str o.output_id) ∧
      nodeInputGet dC1done.nodes o.node_id "client_id" =
        some (.str o.connection_id)) ∧
    (∀ i ∈ dC1.inputs, nodeInputGet dC1done.nodes i.node_id "input_id"
      = some i.value) :=
  C1_output_rewrite_amended "S" "R" dC1 dC1done rfl
    { node_id := "n1", node_type := "ComfyUIDeployWebsocketImageOutput",
      connection_id := "", output_id := "" }
    [{ node_id := "n2", node_type := "ComfyUIDeployWebsocketImageOutput",
       connection_id := "", output_id := "" }]
    rfl (by decide) (by decide)

/-!
## C2 — the cached descriptor is mutated, not copied
-/

theorem run_workflow_ok (sid rid : String) (d : WorkflowDescriptor) (cb : Nat)
    (env : EngineEnv) (now : Nat) (jm : JobMaps) (d2 : WorkflowDescriptor)
    (task : WorkflowTask)
    (h : (run_workflow sid rid d cb env now jm).result = .ok (d2, task)) :
    rewriteDescriptor sid rid d = .ok d2 := by
  cases hrw : rewriteDescriptor sid rid d with
  | error e =>
    have he : (run_workflow sid rid d cb env now jm).result = .error e := by
      simp [run_workflow, hrw]
    rw [he] at h
    exact Except.noConfusion h
  | ok dd =>
    by_cases hps : env.postStatus = 200
    · cases hpid : env.promptId with
      | none =>
        have he : (run_workflow sid rid d cb env now jm).result =
            .error .noPromptId := by
          simp [run_workflow, hrw, hps, hpid]
        rw [he] at h
        exact Except.noConfusion h
      | some pid =>
        by_cases hpe : pid = ""
        · have he : (run_workflow sid rid d cb env now jm).result =
              .error .noPromptId := by
            simp [run_workflow, hrw, hps, hpid, hpe]
          rw [he] at h
          exact Except.noConfusion h
        · have he : (run_workflow sid rid d cb env now jm).result =
              .ok (dd, { prompt_id := pid, request_id := rid, image_ws_sid := sid,
                         prompt := dd, executing_node_id := none,
                         status := .queued }) := by
            simp [run_workflow, hrw, hps, hpid, hpe]
          rw [he] at h
          obtain ⟨h1, _⟩ := Prod.mk.inj (Except.ok.inj h)
          rw [h1]
    · have he : (run_workflow sid rid d cb env now jm).result =
          .error .submitFailed := by
        simp [run_workflow, hrw, hps]
      rw [he] at h
      exact Except.noConfusion h

/-- C2 counterexample: before the submission the cached descriptor's input
node holds `input_id = "orig"` and its inputs list is the analysis result;
after `queue_workflow` completes successfully, the cache entry for the same
workflow id holds `input_id = "NEW"`, the caller's inputs list, and the
request-specific output bindings — the cached descriptor was mutated in
place, not left unchanged. -/
theorem C2_counterexample :
    nodeInputGet dC2.nodes "i" "input_id" = some (.str "orig") ∧
    queueC2.result = .ok "R" ∧
    ((aget queueC2.cache "w").map fun d => nodeInputGet d.nodes "i" "input_id")
      = some (some (.str "NEW")) ∧
    ((aget queueC2.cache "w").map fun d => d.inputs) = some userInputsC2 ∧
    ((aget queueC2.cache "w").map fun d => nodeInputGet d.nodes "o" "output_id")
      = some (some (.str "R")) ∧
    JVal.str "NEW" ≠ JVal.str "orig" := by
  refine ⟨rfl, rfl, rfl, rfl, rfl, ?_⟩
  intro hh
  exact absurd (JVal.str.inj hh) (by decide)

/-- C2 (amended): the per-request rewrite operates on the cached descriptor
instance itself.  After a successful `queue_workflow` for a cached
`workflow_id`, the analysis cache holds the rewritten descriptor: its
inputs list is the caller-supplied list and its nodes carry the per-request
`input_id` / `output_id` / `client_id` values; the pre-rewrite cached
instance is not preserved. -/
theorem C2_cache_mutated_amended (cache : AList WorkflowDescriptor) (wid : String)
    (userInputs : List WorkflowInput) (sid rid : String) (cb : Nat)
    (env : EngineEnv) (now : Nat) (jm : JobMaps) (d : WorkflowDescriptor)
    (hd : aget cache wid = some d)
    (hres : (queue_workflow cache wid userInputs (some sid) rid cb env now
      jm).result = .ok rid) :
    ∃ d2, rewriteDescriptor sid rid { d with inputs := userInputs } = .ok d2 ∧
      aget (queue_workflow cache wid userInputs (some sid) rid cb env now
        jm).cache wid = some d2 ∧
      d2.inputs = userInputs := by
  cases hr : (run_workflow sid rid { d with inputs := userInputs } cb env now
      jm).result with
  | error e =>
    have hre : (queue_workflow cache wid userInputs (some sid) rid cb env now
        jm).result = .error (.runErr e) := by
      simp [queue_workflow, hd, hr]
    rw [hre] at hres
    exact Except.noConfusion hres
  | ok pair =>
    obtain ⟨d2, task⟩ := pair
    have hrw : rewriteDescriptor sid rid { d with inputs := userInputs } = .ok d2 :=
      run_workflow_ok sid rid _ cb env now jm d2 task hr
    refine ⟨d2, hrw, ?_, ?_⟩
    · have hce : (queue_workflow cache wid userInputs (some sid) rid cb env now
          jm).cache = aset (aset cache wid { d with inputs := userInputs }) wid d2 := by
        simp [queue_workflow, hd, hr]
      rw [hce]
      exact aget_aset_self _ wid d2
    · rw [rewriteDescriptor_inputs sid rid _ d2 hrw]

/-- C2 witness: the amended theorem applied to the concrete cache. -/
theorem C2_cache_mutated_amended_witness :
    ∃ d2, rewriteDescriptor "S" "R" { dC2 with inputs := userInputsC2 } = .ok d2 ∧
      aget (queue_workflow [("w", dC2)] "w" userInputsC2 (some "S") "R" 7
        { postStatus := 200, promptId := some "P" } 0 jobMapsEmpty).cache "w"
        = some d2 ∧
      d2.inputs = userInputsC2 :=
  C2_cache_mutated_amended [("w", dC2)] "w" userInputsC2 "S" "R" 7
    { postStatus := 200, promptId := some "P" } 0 jobMapsEmpty dC2 rfl rfl

/-!
## C9 — the workflow listing
-/

theorem buildInputs_length (l : List (String × JNode)) :
    ∀ is, buildInputs l = .ok is → is.length = l.length := by
  induction l with
  | nil => intro is h; cases Except.ok.inj h; rfl
  | cons e rest ih =>
    intro is h
    obtain ⟨nid, n⟩ := e
    cases hm : mkInput nid n with
    | error e => simp [buildInputs, hm] at h
    | ok i =>
      cases ht : buildInputs rest with
      | error e => simp [buildInputs, hm, ht] at h
      | ok tail =>
        rw [show buildInputs ((nid, n) :: rest) = .ok (i :: tail) by
          simp [buildInputs, hm, ht]] at h
        cases Except.ok.inj h
        simp [ih tail ht]

theorem analyze_ok_shape (wid : String) (parsed : Except Unit (AList JNode))
    (d : WorkflowDescriptor) (h : analyze_workflow wid parsed = .ok d) :
    ∃ wf, parsed = .ok wf ∧ aget wf "nodes" = none ∧
      d.inputs.length = (inputNodes (nodesById wf)).length := by
  cases parsed with
  | error u => simp [analyze_workflow] at h
  | ok wf =>
    refine ⟨wf, rfl, ?_, ?_⟩
    · cases hn : aget wf "nodes" with
      | none => rfl
      | some x => simp [analyze_workflow, hn] at h
    · cases hn : aget wf "nodes" with
      | some x => simp [analyze_workflow, hn] at h
      | none =>
        cases hbs : buildSources (nodesById wf) (nodesById wf) with
        | error e => simp [analyze_workflow, hn, hbs] at h
        | ok sources =>
          cases hbi : buildInputs (inputNodes (nodesById wf)) with
          | error e => simp [analyze_workflow, hn, hbs, hbi] at h
          | ok inputs =>
            have he : analyze_workflow wid (.ok wf) =
                .ok { workflow_id := wid, workflow_json := wf,
                      nodes := nodesById wf, edges := buildEdges (nodesById wf),
                      source_ids := sources, sink_ids := buildSinks (nodesById wf),
                      external_parameters := buildExternal (nodesById wf),
                      inputs := inputs,
                      outputs := buildOutputs (outputNodes (nodesById wf)) } := by
              simp [analyze_workflow, hn, hbs, hbi]
            rw [he] at h
            cases Except.ok.inj h
            exact buildInputs_length _ inputs hbi

theorem get_workflows_keys (files : AList (Except Unit (AList JNode))) :
    ∀ m, get_workflows files = .ok m → ∀ q, q ∉ akeys files → aget m q = none := by
  induction files with
  | nil => intro m h q _; cases Except.ok.inj h; rfl
  | cons e rest ih =>
    intro m h q hq
    obtain ⟨w0, p0⟩ := e
    have hq0 : q ≠ w0 := fun hh => hq (hh ▸ List.mem_cons_self w0 (akeys rest))
    have hqr : q ∉ akeys rest := fun hh => hq (List.mem_cons_of_mem w0 hh)
    cases han : analyze_workflow w0 p0 with
    | ok d0 =>
      cases hrest : get_workflows rest with
      | error e => simp [get_workflows, han, hrest] at h
      | ok mr =>
        rw [show get_workflows ((w0, p0) :: rest) =
            .ok (if 0 < d0.inputs.length then (w0, ()) :: mr else mr) by
          simp [get_workflows, han, hrest]] at h
        cases Except.ok.inj h
        by_cases hlen : 0 < d0.inputs.length
        · rw [if_pos hlen]
          show aget ((w0, ()) :: mr) q = none
          rw [show aget ((w0, ()) :: mr) q =
              if w0 = q then some () else aget mr q from rfl,
            if_neg fun hh => hq0 hh.symm]
          exact ih mr hrest q hqr
        · rw [if_neg hlen]
          exact ih mr hrest q hqr
    | error ae =>
      cases ae with
      | valueErr =>
        rw [show get_workflows ((w0, p0) :: rest) = get_workflows rest by
          simp [get_workflows, han]] at h
        exact ih m h q hqr
      | keyErr =>
        rw [show get_workflows ((w0, p0) :: rest) = .error .keyErr by
          simp [get_workflows, han]] at h
        exact Except.noConfusion h

theorem get_workflows_mem (files : AList (Except Unit (AList JNode)))
    (hnd : (akeys files).Nodup) :
    ∀ m, get_workflows files = .ok m → ∀ wid,
      ((aget m wid).isSome ↔
        ∃ parsed d, aget files wid = some parsed ∧
          analyze_workflow wid parsed = .ok d ∧ 0 < d.inputs.length) := by
  induction files with
  | nil =>
    intro m h wid
    cases Except.ok.inj h
    constructor
    · intro hh; simp [aget] at hh
    · rintro ⟨parsed, d, hp, _⟩; simp [aget] at hp
  | cons e rest ih =>
    intro m h wid
    obtain ⟨w0, p0⟩ := e
    rw [show akeys ((w0, p0) :: rest) = w0 :: akeys rest from rfl,
      List.nodup_cons] at hnd
    cases han : analyze_workflow w0 p0 with
    | ok d0 =>
      cases hrest : get_workflows rest with
      | error e => simp [get_workflows, han, hrest] at h
      | ok mr =>
        rw [show get_workflows ((w0, p0) :: rest) =
            .ok (if 0 < d0.inputs.length then (w0, ()) :: mr else mr) by
          simp [get_workflows, han, hrest]] at h
        cases Except.ok.inj h
        by_cases hw : wid = w0
        · subst hw
          have hfile : aget ((wid, p0) :: rest) wid = some p0 := by simp [aget]
          by_cases hlen : 0 < d0.inputs.length
          · rw [if_pos hlen]
            constructor
            · intro _; exact ⟨p0, d0, hfile, han, hlen⟩
            · intro _
              show (aget ((wid, ()) :: mr) wid).isSome
              simp [aget]
          · rw [if_neg hlen]
            constructor
            · intro hh
              rw [get_workflows_keys rest mr hrest wid hnd.1] at hh
              exact Bool.noConfusion hh
            · rintro ⟨parsed, d, hp, hd, hl⟩
              rw [hfile] at hp
              cases Option.some.inj hp
              rw [han] at hd
              cases Except.ok.inj hd
              exact absurd hl hlen
        · have hfile : aget ((w0, p0) :: rest) wid = aget rest wid := by
            rw [show aget ((w0, p0) :: rest) wid =
                if w0 = wid then some p0 else aget rest wid from rfl,
              if_neg fun hh => hw hh.symm]
          rw [hfile]
          have hm : aget (if 0 < d0.inputs.length then (w0, ()) :: mr else mr)
              wid = aget mr wid := by
            by_cases hlen : 0 < d0.inputs.length
            · rw [if_pos hlen]
              rw [show aget ((w0, ()) :: mr) wid =
                  if w0 = wid then some () else aget mr wid from rfl,
                if_neg fun hh => hw hh.symm]
            · rw [if_neg hlen]
          rw [hm]
          exact ih hnd.2 mr hrest wid
    | error ae =>
      cases ae with
      | valueErr =>
        rw [show get_workflows ((w0, p0) :: rest) = get_workflows rest by
          simp [get_workflows, han]] at h
        by_cases hw : wid = w0
        · subst hw
          have hfile : aget ((wid, p0) :: rest) wid = some p0 := by simp [aget]
          constructor
          · intro hh
            rw [get_workflows_keys rest m h wid hnd.1] at hh
            exact Bool.noConfusion hh
          · rintro ⟨parsed, d, hp, hd, _⟩
            rw [hfile] at hp
            cases Option.some.inj hp
            rw [han] at hd
            exact Except.noConfusion hd
        · have hfile : aget ((w0, p0) :: rest) wid = aget rest wid := by
            rw [show aget ((w0, p0) :: rest) wid =
                if w0 = wid then some p0 else aget rest wid from rfl,
              if_neg fun hh => hw hh.symm]
          rw [hfile]
          exact ih hnd.2 m h wid
      | keyErr =>
        rw [show get_workflows ((w0, p0) :: rest) = .error .keyErr by
          simp [get_workflows, han]] at h
        exact Except.noConfusion h

/-- C9: whenever the workflow listing returns, it contains exactly the ids
of files whose JSON parses as an API-format definition (no top-level
`nodes` key, as witnessed by a successful analysis) and whose descriptor
has at least one external input node (class-type prefixed
`ComfyUIDeployExternal`); files that parse but yield zero input nodes are
silently omitted.  The second conjunct ties a successful analysis to the
claim's terms: it implies the file parsed, has no top-level `nodes` key,
and its `inputs` count equals the number of external input nodes. -/
theorem C9_workflow_listing (files : AList (Except Unit (AList JNode)))
    (hnd : (akeys files).Nodup) (m : AList Unit)
    (hok : get_workflows files = .ok m) (wid : String) :
    ((aget m wid).isSome ↔
      ∃ parsed d, aget files wid = some parsed ∧
        analyze_workflow wid parsed = .ok d ∧ 0 < d.inputs.length) ∧
    (∀ parsed d, analyze_workflow wid parsed = .ok d →
      ∃ wf, parsed = .ok wf ∧ aget wf "nodes" = none ∧
        d.inputs.length = (inputNodes (nodesById wf)).length) :=
  ⟨get_workflows_mem files hnd m hok wid,
   fun parsed d h => analyze_ok_shape wid parsed d h⟩

set_option maxRecDepth 8192 in
/-- C9 witness: the characterization applied to a concrete directory:
only `wf` is listed; `ui` and `noin` are omitted. -/
theorem C9_workflow_listing_witness :
    ((aget [("wf", ())] "ui").isSome ↔
      ∃ parsed d, aget filesC9 "ui" = some parsed ∧
        analyze_workflow "ui" parsed = .ok d ∧ 0 < d.inputs.length) ∧
    ((aget [("wf", ())] "wf").isSome ↔
      ∃ parsed d, aget filesC9 "wf" = some parsed ∧
        analyze_workflow "wf" parsed = .ok d ∧ 0 < d.inputs.length) :=
  ⟨(C9_workflow_listing filesC9 (by decide) [("wf", ())] rfl "ui").1,
   (C9_workflow_listing filesC9 (by decide) [("wf", ())] rfl "wf").1⟩

/-- C7 witness: the preservation theorem applied to the empty map, whose
invariant holds trivially. -/
theorem C7_heap_invariant_preserved_witness :
    (tmEmpty.set 11 "a" "x").Wf ∧ (tmEmpty.refresh 11 "a").Wf ∧
    ((tmEmpty.pop "a").1).Wf ∧ ((tmEmpty.cleanup 11).1).Wf :=
  C7_heap_invariant_preserved tmEmpty
    ⟨fun k => by simp [tmEmpty, aget],
     fun k last h => by simp [tmEmpty, aget] at h⟩
    11 "a" "x"

end ComfyAPI
